import Mathlib

/-!
Verification development for the FQDN-aware NetworkPolicy enforcement
controller of the Antrea agent (pkg/agent/controller/networkpolicy/fqdn.go).

The Go code is embedded shallowly:
* `time.Time` values become `Int` instants (`t1.Before t2` is `t1 < t2`,
  `t1.After t2` is `t1 > t2`);
* `net.IP` values are identified with their string representation (the Go
  code keys every IP map by `ip.String()`);
* Go maps become association lists (`List (K × α)`) when their key set is
  iterated, and functions (`K → Option α` / `K → Finset V` with "absent key =
  empty set") when only point lookups and point updates occur;
* `sets.Set[string]` becomes `Finset String`;
* channels and goroutines become explicit event sequences: the rule
  realization channel becomes a list of `(ruleId, success)` updates folded
  over the tracker state, and a packet's one-shot `waitCh` becomes the list
  of values ever sent to it.
-/

/-! ### Association-list helpers (Go `map` with an iterable key set) -/

/-- Lookup of the first binding of a key in an association list
(Go map read `m[k]`, together with the `ok` bit via `Option`). -/

def alookup {K : Type} [DecidableEq K] {α : Type} : List (K × α) → K → Option α
  | [], _ => none
  | p :: t, k => if k = p.1 then some p.2 else alookup t k

/-- Map write `m[k] = v`: replace the binding of `k` if present, otherwise
append a new binding. -/

def aupsert {K : Type} [DecidableEq K] {α : Type} : List (K × α) → K → α → List (K × α)
  | [], k, v => [(k, v)]
  | p :: t, k, v => if p.1 = k then (k, v) :: t else p :: aupsert t k v

/-- Map delete `delete(m, k)`: drop every binding of `k`. -/

def aerase {K : Type} [DecidableEq K] {α : Type} (m : List (K × α)) (k : K) : List (K × α) :=
  m.filter (fun p => p.1 ≠ k)

/-- The key list of an association list (Go `for k := range m`). -/

def akeys {K : Type} {α : Type} (m : List (K × α)) : List K :=
  m.map Prod.fst

/-! ### Basic data model of fqdn.go -/

/-- One resolved address: the IP (by its string form) and the instant at which
the DNS record expires (`ipWithExpiration` in fqdn.go). -/

structure ipWithExpiration where
  ip : String
  expirationTime : Int
deriving DecidableEq, Repr

/-- `laterOf` from fqdn.go: the later of two instants
(`if t1.After(t2) { return t1 }; return t2`). -/

def laterOf (t1 t2 : Int) : Int :=
  if t2 < t1 then t1 else t2

/-- A selector over FQDNs: exactly one of `matchName` (exact, lowercased) and
`matchRegex` (anchored regex compiled from a wildcard pattern) is non-empty
(`fqdnSelectorItem` in fqdn.go). -/

structure fqdnSelectorItem where
  matchName : String
  matchRegex : String
deriving DecidableEq, Repr

/-- Tokens of the tiny regex dialect emitted by `toRegex`: literal characters
and the Kleene wildcard `.*`. -/

inductive RegexToken where
  | lit (c : Char)
  | dotStar
deriving DecidableEq, Repr

/-- Tokenizer for the anchored patterns produced by `toRegex`: `[.]` is a
literal dot, `.*` is the wildcard, any other character is a literal. -/

def parseRegexTokens : List Char → List RegexToken
  | [] => []
  | '[' :: '.' :: ']' :: rest => RegexToken.lit '.' :: parseRegexTokens rest
  | '.' :: '*' :: rest => RegexToken.dotStar :: parseRegexTokens rest
  | c :: rest => RegexToken.lit c :: parseRegexTokens rest

/-- Matcher for a token sequence against a character sequence (full match),
with explicit fuel so that the definition is structural (and hence reduces in
the kernel). Every recursive call shrinks the combined length of the two
lists, so `tokens.length + chars.length + 1` fuel always suffices. -/

def matchTokensFuel : Nat → List RegexToken → List Char → Bool
  | 0, _, _ => false
  | _ + 1, [], [] => true
  | _ + 1, [], _ :: _ => false
  | _ + 1, RegexToken.lit _ :: _, [] => false
  | n + 1, RegexToken.lit c :: ts, x :: xs => c = x && matchTokensFuel n ts xs
  | n + 1, RegexToken.dotStar :: ts, [] => matchTokensFuel n ts []
  | n + 1, RegexToken.dotStar :: ts, x :: xs =>
    matchTokensFuel n ts (x :: xs) || matchTokensFuel n (RegexToken.dotStar :: ts) xs

/-- Matcher for a token sequence against a character sequence (full match). -/

def matchTokens (ts : List RegexToken) (xs : List Char) : Bool :=
  matchTokensFuel (ts.length + xs.length + 1) ts xs

/-- Models Go `regexp.MatchString pattern fqdn` for the anchored patterns that
`toRegex` produces: the leading `^` and trailing `$` force a full match of the
tokenized body. -/

def regexpMatchString (pattern fqdn : String) : Bool :=
  let body :=
    match pattern.data with
    | '^' :: rest => if rest.getLast? = some '$' then rest.dropLast else rest
    | l => l
  matchTokens (parseRegexTokens body) fqdn.data

/-- `matches` from fqdn.go: a regex selector matches by pattern, an exact
selector by name equality. -/

def fqdnSelectorItem.matches (fs : fqdnSelectorItem) (fqdn : String) : Bool :=
  if fs.matchRegex ≠ "" then regexpMatchString fs.matchRegex fqdn
  else fs.matchName == fqdn

/-- Models Go `strings.ToLower` (ASCII case folding suffices for FQDNs). -/

def goToLower (s : String) : String :=
  String.mk (s.data.map (fun c =>
    if 'A' ≤ c ∧ c ≤ 'Z' then Char.ofNat (c.toNat + 32) else c))

/-- Models Go `strings.TrimSpace`. -/

def goTrimSpace (s : String) : String :=
  String.mk (((s.data.dropWhile Char.isWhitespace).reverse.dropWhile
    Char.isWhitespace).reverse)

/-- `toRegex` from fqdn.go: trim, escape `.` as `[.]`, expand `*` to `.*`,
anchor with `^` and `$`. The two `strings.ReplaceAll` calls are modelled
character by character (their patterns are single characters). -/

def toRegex (pattern : String) : String :=
  let replaced := (goTrimSpace pattern).data.flatMap (fun c =>
    if c = '.' then ['[', '.', ']']
    else if c = '*' then ['.', '*']
    else [c])
  String.mk ('^' :: replaced ++ ['$'])

/-- `fqdnToSelectorItem` from fqdn.go: lowercase; a pattern containing `*`
becomes a regex selector, otherwise an exact-name selector. -/

def fqdnToSelectorItem (fqdn : String) : fqdnSelectorItem :=
  let fqdn := goToLower fqdn
  if fqdn.data.contains '*' then
    { matchName := "", matchRegex := toRegex fqdn }
  else
    { matchName := fqdn, matchRegex := "" }

/-! ### The response merge of `onDNSResponse` (cached-FQDN branch) -/

/-- The fate of one cached IP entry under the second loop of `onDNSResponse`:
dropped when absent from the new response and already expired, kept unchanged
when absent but unexpired, refreshed to the later expiration when present in
the new response. -/

def mergeEntry (newIPs : List (String × ipWithExpiration)) (now : Int)
    (p : String × ipWithExpiration) : Option (String × ipWithExpiration) :=
  match alookup newIPs p.1 with
  | none =>
    if p.2.expirationTime < now then none else some p
  | some newIPMeta =>
    some (p.1, { ip := p.2.ip,
                 expirationTime := laterOf newIPMeta.expirationTime p.2.expirationTime })

/-- The merged IP map built by the two loops of `onDNSResponse` when the FQDN
is already cached: the first loop adds every new IP that is not cached yet;
the second loop applies `mergeEntry` to every cached IP. -/

def mergeCached (cachedIPs newIPs : List (String × ipWithExpiration)) (now : Int) :
    List (String × ipWithExpiration) :=
  newIPs.filter (fun p => (alookup cachedIPs p.1).isNone) ++
    cachedIPs.filterMap (mergeEntry newIPs now)

/-- The `addressUpdate` flag computed by the same two loops: set by a new IP
that was not cached, or by a cached IP that is absent from the response and
already expired. -/

def addressUpdateCached (cachedIPs newIPs : List (String × ipWithExpiration)) (now : Int) :
    Bool :=
  newIPs.any (fun p => (alookup cachedIPs p.1).isNone) ||
    cachedIPs.any (fun p => (alookup newIPs p.1).isNone && decide (p.2.expirationTime < now))

/-- `timeToRequery` maintained by `updateIPWithExpiration`: the least
expiration time among the entries of the produced map. -/

def minExpiration : List (String × ipWithExpiration) → Option Int
  | [] => none
  | p :: rest =>
    match minExpiration rest with
    | none => some p.2.expirationTime
    | some m => some (min p.2.expirationTime m)

/-! ### The selector/cache state of the fqdnController -/

/-- The part of the `fqdnController` state protected by `fqdnSelectorMutex`:
the DNS entry cache and the three selector maps. `dnsEntryCache` and
`selectorItemToRuleIDs` are kept as association lists because the Go code
iterates over their keys; the other two maps are only read and written
pointwise, so they become functions (`fqdnToSelectorItem` identifies an
absent key with the empty set, which the Go code never distinguishes;
`selectorItemToFQDN` keeps the `ok` bit because `getIPsForFQDNSelectors`
branches on it). -/

structure FQDNState where
  dnsEntryCache : List (String × List (String × ipWithExpiration))
  fqdnToSelectorItem : String → Finset fqdnSelectorItem
  selectorItemToFQDN : fqdnSelectorItem → Option (Finset String)
  selectorItemToRuleIDs : List (fqdnSelectorItem × Finset String)

/-- The empty state a fresh `fqdnController` starts from. -/

def initFQDNState : FQDNState :=
  { dnsEntryCache := []
    fqdnToSelectorItem := fun _ => ∅
    selectorItemToFQDN := fun _ => none
    selectorItemToRuleIDs := [] }

/-- `setFQDNMatchSelector` from fqdn.go: record in both directions that
`fqdn` and `selectorItem` match. -/

def setFQDNMatchSelector (s : FQDNState) (fqdn : String)
    (selectorItem : fqdnSelectorItem) : FQDNState :=
  { s with
    fqdnToSelectorItem := fun g =>
      if g = fqdn then insert selectorItem (s.fqdnToSelectorItem g)
      else s.fqdnToSelectorItem g
    selectorItemToFQDN := fun t =>
      if t = selectorItem then
        match s.selectorItemToFQDN t with
        | none => some {fqdn}
        | some matchedFQDNs => some (insert fqdn matchedFQDNs)
      else s.selectorItemToFQDN t }

/-- The body of the `addFQDNSelector` loop for a single FQDN expression:
derive the selector item; a brand-new selector is registered and matched
against the existing cache (regex) or linked to its own name (exact, which
also enqueues an immediate DNS query — the queue lives outside this state);
an existing selector merely gains the rule ID. -/

def addFQDNSelectorOne (s : FQDNState) (ruleID : String) (fqdn : String) : FQDNState :=
  let selectorItem := fqdnToSelectorItem fqdn
  match alookup s.selectorItemToRuleIDs selectorItem with
  | none =>
    let s1 := { s with
      selectorItemToRuleIDs := aupsert s.selectorItemToRuleIDs selectorItem {ruleID} }
    if selectorItem.matchRegex ≠ "" then
      (akeys s1.dnsEntryCache).foldl
        (fun st f =>
          if selectorItem.matches f then setFQDNMatchSelector st f selectorItem else st)
        s1
    else
      setFQDNMatchSelector s1 selectorItem.matchName selectorItem
  | some ruleIDs =>
    { s with
      selectorItemToRuleIDs :=
        aupsert s.selectorItemToRuleIDs selectorItem (insert ruleID ruleIDs) }

/-- `addFQDNSelector` from fqdn.go. -/

def addFQDNSelector (s : FQDNState) (ruleID : String) (fqdns : List String) : FQDNState :=
  fqdns.foldl (fun st fqdn => addFQDNSelectorOne st ruleID fqdn) s

/-- `cleanupFQDNSelectorItem` from fqdn.go: for every FQDN the selector was
linked to, drop the selector; an FQDN left with no selector is evicted from
`fqdnToSelectorItem` and from the DNS entry cache; finally the selector's own
entries are deleted. -/

def cleanupFQDNSelectorItem (s : FQDNState) (fs : fqdnSelectorItem) : FQDNState :=
  let linked := (s.selectorItemToFQDN fs).getD ∅
  { dnsEntryCache := s.dnsEntryCache.filter (fun p =>
      !(decide (p.1 ∈ linked) && decide (fs ∈ s.fqdnToSelectorItem p.1) &&
        decide ((s.fqdnToSelectorItem p.1).erase fs = ∅)))
    fqdnToSelectorItem := fun g =>
      if g ∈ linked then (s.fqdnToSelectorItem g).erase fs else s.fqdnToSelectorItem g
    selectorItemToFQDN := fun t => if t = fs then none else s.selectorItemToFQDN t
    selectorItemToRuleIDs := aerase s.selectorItemToRuleIDs fs }

/-- The body of the `deleteFQDNSelector` loop for a single FQDN expression:
drop the rule from the selector's rule set; when the set empties, the
selector is garbage-collected by `cleanupFQDNSelectorItem`. -/

def deleteFQDNSelectorOne (s : FQDNState) (ruleID : String) (fqdn : String) : FQDNState :=
  let selectorItem := fqdnToSelectorItem fqdn
  match alookup s.selectorItemToRuleIDs selectorItem with
  | none => s
  | some ruleIDs =>
    if ruleID ∈ ruleIDs then
      let remainingRules := ruleIDs.erase ruleID
      if remainingRules.Nonempty then
        { s with
          selectorItemToRuleIDs :=
            aupsert s.selectorItemToRuleIDs selectorItem remainingRules }
      else
        cleanupFQDNSelectorItem s selectorItem
    else s

/-- `deleteFQDNSelector` from fqdn.go. -/

def deleteFQDNSelector (s : FQDNState) (ruleID : String) (fqdns : List String) : FQDNState :=
  fqdns.foldl (fun st fqdn => deleteFQDNSelectorOne st ruleID fqdn) s

/-- The observable outcome of `syncDirtyRules` towards the packet's `waitCh`
and the reconciler: do nothing; only poke the dirty-rule handler for a set of
rules (proactive path); subscribe the `waitCh` to a set of rules and poke the
handler for each of them; or send `nil` on the `waitCh` immediately. -/

inductive SyncAction where
  | noAction
  | pokeRules (rules : Finset String)
  | subscribeAndPoke (rules : Finset String)
  | sendNil
deriving DecidableEq

/-- The union computed by the loop at the top of `syncDirtyRules`: all rules
of all selector items linked to the FQDN. -/

def rulesSelectingFQDN (s : FQDNState) (fqdn : String) : Finset String :=
  (s.fqdnToSelectorItem fqdn).biUnion
    (fun selectorItem => (alookup s.selectorItemToRuleIDs selectorItem).getD ∅)

/-- `syncDirtyRules` from fqdn.go, with the rule-sync tracker's current dirty
set passed in as `trackerDirty` (the Go code reads it via
`ruleSyncTracker.getDirtyRules`) and the `waitCh` represented by the flag
`hasWaitCh`. -/

def syncDirtyRules (s : FQDNState) (fqdn : String) (hasWaitCh : Bool)
    (addressUpdate : Bool) (trackerDirty : Finset String) : SyncAction :=
  if !hasWaitCh && !addressUpdate then SyncAction.noAction
  else
    let dirtyRules := rulesSelectingFQDN s fqdn
    if !hasWaitCh then
      if addressUpdate then SyncAction.pokeRules dirtyRules else SyncAction.noAction
    else
      let dirtyRules := if !addressUpdate then trackerDirty ∩ dirtyRules else dirtyRules
      if dirtyRules.Nonempty then SyncAction.subscribeAndPoke dirtyRules
      else SyncAction.sendNil

/-- `onDNSResponse` from fqdn.go. Returns the new selector/cache state, the
requery delay handed to `dnsQueryQueue.AddAfter` (if any), and the
`syncDirtyRules` outcome (the empty-response early return sends `nil`
directly when a `waitCh` is present). -/

def onDNSResponse (s : FQDNState) (fqdn : String)
    (newIPsWithExpiration : List (String × ipWithExpiration)) (now : Int)
    (hasWaitCh : Bool) (trackerDirty : Finset String) :
    FQDNState × Option Int × SyncAction :=
  if newIPsWithExpiration.isEmpty then
    (s, none, if hasWaitCh then SyncAction.sendNil else SyncAction.noAction)
  else
    match alookup s.dnsEntryCache fqdn with
    | some cachedDNSMeta =>
      let merged := mergeCached cachedDNSMeta newIPsWithExpiration now
      let addressUpdate := addressUpdateCached cachedDNSMeta newIPsWithExpiration now
      let s1 :=
        if merged.isEmpty then s
        else { s with dnsEntryCache := aupsert s.dnsEntryCache fqdn merged }
      let requery :=
        if merged.isEmpty then none else (minExpiration merged).map (fun t => t - now)
      (s1, requery, syncDirtyRules s1 fqdn hasWaitCh addressUpdate trackerDirty)
    | none =>
      let s1 := (akeys s.selectorItemToRuleIDs).foldl
        (fun st selectorItem =>
          if selectorItem.matches fqdn then setFQDNMatchSelector st fqdn selectorItem
          else st)
        s
      let addToCache := (akeys s.selectorItemToRuleIDs).any
        (fun selectorItem => selectorItem.matches fqdn)
      let s2 :=
        if addToCache then
          { s1 with dnsEntryCache := aupsert s1.dnsEntryCache fqdn newIPsWithExpiration }
        else s1
      let requery :=
        if addToCache then
          (minExpiration newIPsWithExpiration).map (fun t => t - now)
        else none
      (s2, requery, syncDirtyRules s2 fqdn hasWaitCh addToCache trackerDirty)

/-- An operation on the selector/cache state: a rule add, a rule delete, or a
parsed DNS response (with the ambient clock, `waitCh` presence and tracker
dirty set of that moment). -/

inductive FQDNOp where
  | addSelector (ruleID : String) (fqdns : List String)
  | deleteSelector (ruleID : String) (fqdns : List String)
  | dnsResponse (fqdn : String) (ips : List (String × ipWithExpiration)) (now : Int)
      (hasWaitCh : Bool) (trackerDirty : Finset String)

/-- One step of the selector/cache state machine. -/

def stepFQDN (s : FQDNState) : FQDNOp → FQDNState
  | FQDNOp.addSelector ruleID fqdns => addFQDNSelector s ruleID fqdns
  | FQDNOp.deleteSelector ruleID fqdns => deleteFQDNSelector s ruleID fqdns
  | FQDNOp.dnsResponse fqdn ips now hasWaitCh trackerDirty =>
    (onDNSResponse s fqdn ips now hasWaitCh trackerDirty).1

/-- The state reached from the fresh controller by a sequence of operations. -/

def runFQDNOps (ops : List FQDNOp) : FQDNState :=
  ops.foldl stepFQDN initFQDNState

/-! ### getIPsForFQDNSelectors -/

/-- The inner loop of `getIPsForFQDNSelectors` for one selector item: collect
the cached IPs of every FQDN the selector is linked to. -/

def matchedIPsOf (s : FQDNState) (fqdnsMatched : Finset String) : Finset String :=
  fqdnsMatched.biUnion (fun fqdn =>
    match alookup s.dnsEntryCache fqdn with
    | none => ∅
    | some dnsMeta => (dnsMeta.map (fun p => p.2.ip)).toFinset)

/-- The loop of `getIPsForFQDNSelectors` with its accumulator: an expression
whose selector item is unknown to `selectorItemToFQDN` causes an early
return of whatever has been collected so far. -/

def getIPsForFQDNSelectorsAux (s : FQDNState) (matchedIPs : Finset String) :
    List String → Finset String
  | [] => matchedIPs
  | fqdn :: rest =>
    match s.selectorItemToFQDN (fqdnToSelectorItem fqdn) with
    | none => matchedIPs
    | some fqdnsMatched =>
      getIPsForFQDNSelectorsAux s (matchedIPs ∪ matchedIPsOf s fqdnsMatched) rest

/-- `getIPsForFQDNSelectors` from fqdn.go, as the set of returned IPs (the Go
function returns a slice; order and multiplicity are irrelevant to callers). -/

def getIPsForFQDNSelectors (s : FQDNState) (fqdns : List String) : Finset String :=
  getIPsForFQDNSelectorsAux s ∅ fqdns

/-- The result claimed by the specification for `GetIPsForSelectors`: the
union over every expression of the list of the currently-cached IPs of the
names matched by that expression's selector item (no early return). This
definition follows the spec's words and is compared against
`getIPsForFQDNSelectors` above. -/

def getIPsForFQDNSelectorsSpec (s : FQDNState) (fqdns : List String) : Finset String :=
  (fqdns.map (fun fqdn =>
    match s.selectorItemToFQDN (fqdnToSelectorItem fqdn) with
    | none => ∅
    | some fqdnsMatched => matchedIPsOf s fqdnsMatched)).foldl (fun a b => a ∪ b) ∅

/-! ### parseDNSResponse and the host-resolver fallback -/

/-- A DNS answer record as far as `parseDNSResponse` inspects it: an `A`
record, an `AAAA` record (each with the IP and the record TTL), or any other
record type (skipped by the `switch`). -/

inductive dnsAnswer where
  | A (ip : String) (ttl : Nat)
  | AAAA (ip : String) (ttl : Nat)
  | other
deriving DecidableEq, Repr

/-- Models Go `strings.TrimSuffix s "."`: drop one trailing dot if present. -/

def trimTrailingDot (s : String) : String :=
  match s.data.getLast? with
  | some '.' => String.mk s.data.dropLast
  | _ => s

/-- `parseDNSResponse` from fqdn.go: fail on an empty question section;
lowercase the first question and strip its trailing dot; keep `A` records if
IPv4 is enabled and `AAAA` records if IPv6 is enabled, each expiring at
`now + max(minTTL, record TTL)` seconds. -/

def parseDNSResponse (minTTL : Nat) (ipv4Enabled ipv6Enabled : Bool) (now : Int)
    (question : List String) (answer : List dnsAnswer) :
    Option (String × List (String × ipWithExpiration)) :=
  match question with
  | [] => none
  | q :: _ =>
    let fqdn := goToLower q
    let responseIPs := answer.foldl (fun m ans =>
      match ans with
      | dnsAnswer.A ip ttl =>
        if ipv4Enabled then
          aupsert m ip { ip := ip, expirationTime := now + (Nat.max minTTL ttl : Nat) }
        else m
      | dnsAnswer.AAAA ip ttl =>
        if ipv6Enabled then
          aupsert m ip { ip := ip, expirationTime := now + (Nat.max minTTL ttl : Nat) }
        else m
      | dnsAnswer.other => m) []
    some (trimTrailingDot fqdn, responseIPs)

/-- `defaultTTL` from `lookupIP` in fqdn.go: the synthetic TTL (600 seconds)
assigned to host-resolver results, which expose no per-record TTL. -/

def defaultTTL : Nat := 600

/-- `makeResponseIPs` from `lookupIP` in fqdn.go: every resolved IP expires
`defaultTTL` seconds from now, regardless of the controller's `minTTL`. -/

def makeResponseIPs (now : Int) (ips : List String) : List (String × ipWithExpiration) :=
  ips.foldl (fun m ip => aupsert m ip { ip := ip, expirationTime := now + (defaultTTL : Int) }) []

/-! ### updateRuleSelectedPods -/

/-- The union of the pod ofPort sets over all rules
(the two aggregation loops of `updateRuleSelectedPods`). -/

def podsUnion (m : List (String × Finset Int)) : Finset Int :=
  m.foldl (fun acc p => acc ∪ p.2) ∅

/-- `updateRuleSelectedPods` from fqdn.go. The datapath is abstracted by two
flags saying whether `AddAddressToDNSConjunction` and
`DeleteAddressFromDNSConjunction` would fail. Returns the new
`fqdnRuleToSelectedPods` map and whether an error is returned to the caller.
Note the order in the Go code: the map is mutated first, the deltas are
computed from the mutated map, and a datapath failure returns without
touching the map again. -/

def updateRuleSelectedPods (fqdnRuleToSelectedPods : List (String × Finset Int))
    (ruleID : String) (podOFAddrs : Finset Int) (addFails delFails : Bool) :
    List (String × Finset Int) × Bool :=
  let originalPodSet := podsUnion fqdnRuleToSelectedPods
  let m1 := aupsert fqdnRuleToSelectedPods ruleID podOFAddrs
  let newPodSet := podsUnion m1
  let addedPods := newPodSet \ originalPodSet
  let removedPods := originalPodSet \ newPodSet
  if addedPods.Nonempty ∧ addFails = true then (m1, true)
  else if removedPods.Nonempty ∧ delFails = true then (m1, true)
  else (m1, false)

/-! ### HandlePacketIn -/

/-- What the blocking `select` at the end of `HandlePacketIn` observes first:
the 2-second `ruleRealizationTimeout` fires, or the one-shot `waitCh`
delivers a value (`none` for success, `some e` for a rule realization or
parse error). -/

inductive waitChEvent where
  | timeout
  | received (err : Option String)
deriving DecidableEq, Repr

/-- `HandlePacketIn` from fqdn.go, reduced to its final `select`: the paused
packet is resumed (`ResumePausePacket` invoked) only on a `nil` from
`waitCh`; a timeout or an error from `waitCh` returns an error and drops the
packet. The first component records whether `ResumePausePacket` was invoked;
the second is the error returned by `HandlePacketIn` (`resumeErr` being what
`ResumePausePacket` itself returns). -/

def HandlePacketIn (ev : waitChEvent) (resumeErr : Option String) : Bool × Option String :=
  match ev with
  | waitChEvent.timeout =>
    (false, some "rules not synced within ruleRealizationTimeout for DNS reply, dropping packet")
  | waitChEvent.received (some e) =>
    (false, some ("error when syncing up rules for DNS reply, dropping packet: " ++ e))
  | waitChEvent.received none => (true, resumeErr)

/-! ### The rule sync tracker -/

/-- One `subscriber` as the tracker sees it: its outstanding dirty-rule count
and (for the proofs) the values sent to its `waitCh` so far, in order
(`none` is the `nil` completion, `some r` the error for rule `r`). -/

structure subRec where
  rulesToSyncCount : Nat
  sent : List (Option String)
deriving DecidableEq, Repr

/-- The `ruleSyncTracker` state: the subscribers (indexed by creation order),
`ruleToSubscribers` as the list of subscriber indices per rule (an absent key
and an empty list are indistinguishable to the Go code), and the dirty rule
set. -/

structure ruleSyncTrackerState where
  subscribers : List subRec
  ruleToSubscribers : String → List Nat
  dirtyRules : Finset String

/-- `ruleSyncTracker.subscribe` from fqdn.go: create a subscriber whose count
is the number of dirty rules, append it to each dirty rule's subscriber list,
and fold the rules into the tracker's dirty set. -/

def trackerSubscribe (ts : ruleSyncTrackerState) (dirtyRules : Finset String) :
    ruleSyncTrackerState :=
  { subscribers := ts.subscribers ++ [{ rulesToSyncCount := dirtyRules.card, sent := [] }]
    ruleToSubscribers := fun r =>
      if r ∈ dirtyRules then ts.ruleToSubscribers r ++ [ts.subscribers.length]
      else ts.ruleToSubscribers r
    dirtyRules := ts.dirtyRules ∪ dirtyRules }

/-- The body of the subscriber loop in `ruleSyncTracker.Run` for one
subscriber and one `ruleRealizationUpdate`: an error is pushed to the
`waitCh` unconditionally and zeroes the count; a success decrements a
positive count and pushes `nil` when it reaches zero. -/

def notifySubscriber (s : subRec) (ruleId : String) (success : Bool) : subRec :=
  if !success then { rulesToSyncCount := 0, sent := s.sent ++ [some ruleId] }
  else if s.rulesToSyncCount = 0 then s
  else if s.rulesToSyncCount - 1 = 0 then
    { rulesToSyncCount := 0, sent := s.sent ++ [none] }
  else { rulesToSyncCount := s.rulesToSyncCount - 1, sent := s.sent }

/-- One iteration of `ruleSyncTracker.Run` for an update received on
`updateCh`: notify every subscriber of the rule, clear the rule's subscriber
list, and remove the rule from the dirty set only on success. -/

def trackerProcessUpdate (ts : ruleSyncTrackerState) (u : String × Bool) :
    ruleSyncTrackerState :=
  { subscribers :=
      (ts.ruleToSubscribers u.1).foldl
        (fun ss i =>
          match ss.get? i with
          | none => ss
          | some s => ss.set i (notifySubscriber s u.1 u.2))
        ts.subscribers
    ruleToSubscribers := fun r => if r = u.1 then [] else ts.ruleToSubscribers r
    dirtyRules := if u.2 then ts.dirtyRules.erase u.1 else ts.dirtyRules }

/-- `ruleSyncTracker.Run` from fqdn.go over a finite sequence of realization
updates. -/

def trackerRun (ts : ruleSyncTrackerState) (updates : List (String × Bool)) :
    ruleSyncTrackerState :=
  updates.foldl trackerProcessUpdate ts

/-- Well-formedness of a tracker state: no subscriber index appears twice in
one rule's list, and every index points into `subscribers`. Holds for every
state the tracker actually reaches, since `subscribe` appends a fresh index. -/

def TrackerWF (ts : ruleSyncTrackerState) : Prop :=
  (∀ r, (ts.ruleToSubscribers r).Nodup) ∧
    (∀ r i, i ∈ ts.ruleToSubscribers r → i < ts.subscribers.length)

/-- Ghost view of a single subscriber: its count, the set of rules whose
subscriber list still carries it, and the values sent to its `waitCh`. -/

structure subView where
  rulesToSyncCount : Nat
  pending : Finset String
  sent : List (Option String)

/-- The effect of one realization update on a single subscriber's view. -/

def subStep (v : subView) (u : String × Bool) : subView :=
  if u.1 ∈ v.pending then
    let s := notifySubscriber { rulesToSyncCount := v.rulesToSyncCount, sent := v.sent } u.1 u.2
    { rulesToSyncCount := s.rulesToSyncCount, pending := v.pending.erase u.1, sent := s.sent }
  else v

/-- A single subscriber's view after a sequence of realization updates. -/

def subRunAll (v : subView) (us : List (String × Bool)) : subView :=
  us.foldl subStep v

/-- The updates of a sequence that actually reach a subscriber still pending
on the given rules: the first update of each pending rule. -/

def relevantUpdates (pending : Finset String) : List (String × Bool) → List (String × Bool)
  | [] => []
  | u :: us =>
    if u.1 ∈ pending then u :: relevantUpdates (pending.erase u.1) us
    else relevantUpdates pending us

/-- The pending rules never updated during the sequence. -/

def survivorsAfter (pending : Finset String) : List (String × Bool) → Finset String
  | [] => pending
  | u :: us => survivorsAfter (pending.erase u.1) us

/-- The error values a list of updates pushes (one per failed update, carrying
the rule ID). -/

def errorsOf (us : List (String × Bool)) : List (Option String) :=
  (us.filter (fun u => !u.2)).map (fun u => some u.1)

/-- The exact sequence of values a subscriber with the given initial pending
set receives over a sequence of updates: one error per failed relevant
update, followed by a single `nil` exactly when no relevant update failed and
every pending rule was updated. -/

def sentSpec (pending : Finset String) (us : List (String × Bool)) : List (Option String) :=
  errorsOf (relevantUpdates pending us) ++
    (if errorsOf (relevantUpdates pending us) = [] ∧ survivorsAfter pending us = ∅
     then [none] else [])

/-! ### Lemmas and claim theorems -/

/-! ### Lemmas and claim theorems -/

theorem alookup_aupsert {K : Type} [DecidableEq K] {α : Type}
    (m : List (K × α)) (k : K) (v : α) (k' : K) :
    alookup (aupsert m k v) k' = if k' = k then some v else alookup m k' := by
  induction m with
  | nil => simp [aupsert, alookup]
  | cons p t ih =>
    by_cases h1 : p.1 = k
    · by_cases h2 : k' = k
      · simp [aupsert, alookup, h1, h2]
      · have h3 : ¬k' = p.1 := h1 ▸ h2
        simp [aupsert, alookup, h1, h2, h3]
    · by_cases h2 : k' = p.1
      · have h3 : ¬k' = k := fun hk => h1 (h2 ▸ hk)
        simp [aupsert, alookup, h1, h2, h3]
      · simp [aupsert, alookup, h1, h2, ih]

theorem alookup_aerase {K : Type} [DecidableEq K] {α : Type}
    (m : List (K × α)) (k : K) (k' : K) :
    alookup (aerase m k) k' = if k' = k then none else alookup m k' := by
  induction m with
  | nil => simp [aerase, alookup]
  | cons p t ih =>
    simp only [aerase, List.filter_cons] at ih ⊢
    split_ifs with hp hk hk <;> by_cases hk' : k' = p.1 <;>
      simp_all [alookup]

theorem alookup_filter_key {K : Type} [DecidableEq K] {α : Type}
    (m : List (K × α)) (pred : K → Bool) (k : K) :
    alookup (m.filter (fun p => pred p.1)) k =
      if pred k then alookup m k else none := by
  induction m with
  | nil => simp [alookup]
  | cons p t ih =>
    simp only [List.filter_cons]
    split_ifs with hp <;> by_cases hk : k = p.1 <;>
      simp_all [alookup]

theorem alookup_isSome_iff_mem_akeys {K : Type} [DecidableEq K] {α : Type}
    (m : List (K × α)) (k : K) :
    (alookup m k).isSome = true ↔ k ∈ akeys m := by
  induction m with
  | nil => simp [alookup, akeys]
  | cons p t ih =>
    by_cases h : k = p.1
    · simp [alookup, akeys, h]
    · simp [alookup, akeys, h, ih]

theorem alookup_mem {K : Type} [DecidableEq K] {α : Type}
    (m : List (K × α)) (k : K) (v : α) (h : alookup m k = some v) : (k, v) ∈ m := by
  induction m with
  | nil => simp [alookup] at h
  | cons p t ih =>
    by_cases h1 : k = p.1
    · rw [alookup, if_pos h1] at h
      cases h
      rw [h1]
      exact List.mem_cons_self _ _
    · rw [alookup, if_neg h1] at h
      exact List.mem_cons_of_mem _ (ih h)

theorem laterOf_eq_max (t1 t2 : Int) : laterOf t1 t2 = max t1 t2 := by
  unfold laterOf
  omega

example : fqdnToSelectorItem "a.com" = { matchName := "a.com", matchRegex := "" } := by decide

example : fqdnToSelectorItem "*.K8s.io" =
    { matchName := "", matchRegex := "^.*[.]k8s[.]io$" } := by decide

example : (fqdnToSelectorItem "*.k8s.io").matches "foo.k8s.io" = true := by decide

example : (fqdnToSelectorItem "*.k8s.io").matches "k8s.io" = false := by decide

example : (fqdnToSelectorItem "*.k8s.io").matches "fooxk8sxio" = false := by decide

theorem alookup_append {K : Type} [DecidableEq K] {α : Type}
    (m1 m2 : List (K × α)) (k : K) :
    alookup (m1 ++ m2) k = (alookup m1 k).orElse (fun _ => alookup m2 k) := by
  induction m1 with
  | nil => simp [alookup]
  | cons p t ih =>
    by_cases h : k = p.1 <;> simp [alookup, h, ih]

theorem alookup_eq_none_of_not_mem_akeys {K : Type} [DecidableEq K] {α : Type}
    (m : List (K × α)) (k : K) (h : k ∉ akeys m) : alookup m k = none := by
  cases hl : alookup m k with
  | none => rfl
  | some v =>
    exact absurd ((alookup_isSome_iff_mem_akeys m k).mp (by simp [hl])) h

theorem mergeEntry_key (newIPs : List (String × ipWithExpiration)) (now : Int)
    (p q : String × ipWithExpiration) (h : mergeEntry newIPs now p = some q) :
    q.1 = p.1 := by
  unfold mergeEntry at h
  cases hl : alookup newIPs p.1 with
  | none =>
    rw [hl] at h
    by_cases hexp : p.2.expirationTime < now
    · rw [if_pos hexp] at h
      cases h
    · rw [if_neg hexp] at h
      cases h
      rfl
  | some nm =>
    rw [hl] at h
    cases h
    rfl

theorem mem_akeys_of_mem_akeys_filterMap_mergeEntry
    (cachedIPs newIPs : List (String × ipWithExpiration)) (now : Int) (k : String)
    (h : k ∈ akeys (cachedIPs.filterMap (mergeEntry newIPs now))) :
    k ∈ akeys cachedIPs := by
  induction cachedIPs with
  | nil => simp [akeys] at h
  | cons p t ih =>
    rw [List.filterMap_cons] at h
    cases hme : mergeEntry newIPs now p with
    | none =>
      rw [hme] at h
      exact List.mem_cons_of_mem _ (ih h)
    | some q =>
      rw [hme] at h
      simp only [akeys, List.map_cons, List.mem_cons] at h ⊢
      rcases h with h | h
      · exact Or.inl (h.trans (mergeEntry_key newIPs now p q hme))
      · exact Or.inr (ih h)

theorem alookup_filterMap_mergeEntry
    (cachedIPs newIPs : List (String × ipWithExpiration)) (now : Int) (k : String)
    (hnodup : (akeys cachedIPs).Nodup) :
    alookup (cachedIPs.filterMap (mergeEntry newIPs now)) k =
      (alookup cachedIPs k).bind (fun m => (mergeEntry newIPs now (k, m)).map Prod.snd) := by
  induction cachedIPs with
  | nil => simp [alookup]
  | cons p t ih =>
    have hpair : (akeys (p :: t)).Nodup := hnodup
    rw [akeys, List.map_cons, List.nodup_cons] at hpair
    have hp_not : p.1 ∉ akeys t := hpair.1
    have hnd_tail : (akeys t).Nodup := hpair.2
    rw [List.filterMap_cons]
    cases hme : mergeEntry newIPs now p with
    | none =>
      by_cases hk : k = p.1
      · have hlhs : alookup (t.filterMap (mergeEntry newIPs now)) k = none := by
          apply alookup_eq_none_of_not_mem_akeys
          intro hmem
          rw [hk] at hmem
          exact hp_not (mem_akeys_of_mem_akeys_filterMap_mergeEntry t newIPs now p.1 hmem)
        have hkp : (k, p.2) = p := by
          rw [hk]
        rw [hlhs, alookup, if_pos hk]
        show (none : Option ipWithExpiration) =
          Option.map Prod.snd (mergeEntry newIPs now (k, p.2))
        rw [hkp, hme]
        rfl
      · rw [alookup, if_neg hk]
        exact ih hnd_tail
    | some q =>
      have hq : q.1 = p.1 := mergeEntry_key newIPs now p q hme
      by_cases hk : k = p.1
      · have hkq : k = q.1 := hk.trans hq.symm
        have hkp : (k, p.2) = p := by
          rw [hk]
        rw [alookup, if_pos hkq, alookup, if_pos hk]
        show some q.2 = Option.map Prod.snd (mergeEntry newIPs now (k, p.2))
        rw [hkp, hme]
        rfl
      · have hkq : ¬k = q.1 := fun hc => hk (hc.trans hq)
        rw [alookup, if_neg hkq, alookup, if_neg hk]
        exact ih hnd_tail

theorem map_snd_mergeEntry (newIPs : List (String × ipWithExpiration)) (now : Int)
    (k : String) (m : ipWithExpiration) :
    Option.map Prod.snd (mergeEntry newIPs now (k, m)) =
      match alookup newIPs k with
      | none => if m.expirationTime < now then none else some m
      | some n =>
        some { ip := m.ip, expirationTime := laterOf n.expirationTime m.expirationTime } := by
  rw [mergeEntry]
  cases hn : alookup newIPs k with
  | none =>
    by_cases hexp : m.expirationTime < now
    · simp only [if_pos hexp]
      rfl
    · simp only [if_neg hexp]
      rfl
  | some n => rfl

theorem alookup_mergeCached
    (cachedIPs newIPs : List (String × ipWithExpiration)) (now : Int) (k : String)
    (hnodup : (akeys cachedIPs).Nodup) :
    alookup (mergeCached cachedIPs newIPs now) k =
      match alookup cachedIPs k, alookup newIPs k with
      | some m, some n =>
        some { ip := m.ip, expirationTime := laterOf n.expirationTime m.expirationTime }
      | some m, none => if m.expirationTime < now then none else some m
      | none, some n => some n
      | none, none => none := by
  unfold mergeCached
  rw [alookup_append]
  rw [alookup_filter_key newIPs (fun x => (alookup cachedIPs x).isNone) k]
  rw [alookup_filterMap_mergeEntry cachedIPs newIPs now k hnodup]
  cases hc : alookup cachedIPs k with
  | none =>
    cases hn : alookup newIPs k with
    | none => rfl
    | some n => rfl
  | some m =>
    show Option.map Prod.snd (mergeEntry newIPs now (k, m)) = _
    rw [map_snd_mergeEntry]
    cases hn : alookup newIPs k with
    | none => rfl
    | some n => rfl

theorem mem_aupsert {K : Type} [DecidableEq K] {α : Type}
    (m : List (K × α)) (k : K) (v : α) (p : K × α) (h : p ∈ aupsert m k v) :
    p = (k, v) ∨ p ∈ m := by
  induction m with
  | nil => simpa [aupsert] using h
  | cons q t ih =>
    rw [aupsert] at h
    by_cases hq : q.1 = k
    · rw [if_pos hq] at h
      rcases List.mem_cons.mp h with h | h
      · exact Or.inl h
      · exact Or.inr (List.mem_cons_of_mem _ h)
    · rw [if_neg hq] at h
      rcases List.mem_cons.mp h with h | h
      · exact Or.inr (h ▸ List.mem_cons_self _ _)
      · rcases ih h with h | h
        · exact Or.inl h
        · exact Or.inr (List.mem_cons_of_mem _ h)

/-- C1: the final `select` of `HandlePacketIn` resumes the paused packet
(invokes `ResumePausePacket`) exactly when `waitCh` delivers `nil` before the
2-second `ruleRealizationTimeout`; a timeout or an error value returns an
error and never resumes the packet. -/
theorem HandlePacketIn_resume_iff_nil (ev : waitChEvent) (resumeErr : Option String) :
    ((HandlePacketIn ev resumeErr).1 = true ↔ ev = waitChEvent.received none) ∧
      ((HandlePacketIn ev resumeErr).2 = none ↔
        ev = waitChEvent.received none ∧ resumeErr = none) := by
  cases ev with
  | timeout => simp [HandlePacketIn]
  | received err =>
    cases err with
    | none => simp [HandlePacketIn]
    | some e => simp [HandlePacketIn]

/-- C3: with a `waitCh` present, `syncDirtyRules` without an address update
subscribes to (and pokes the dirty-rule handler for) exactly the intersection
of the rules selecting the FQDN with the tracker's current dirty set, sending
`nil` immediately when that intersection is empty; with an address update it
subscribes to all rules selecting the FQDN (sending `nil` when there are
none). -/
theorem syncDirtyRules_waitCh_spec (s : FQDNState) (fqdn : String)
    (trackerDirty : Finset String) :
    (syncDirtyRules s fqdn true false trackerDirty =
        if (trackerDirty ∩ rulesSelectingFQDN s fqdn).Nonempty
        then SyncAction.subscribeAndPoke (trackerDirty ∩ rulesSelectingFQDN s fqdn)
        else SyncAction.sendNil) ∧
      (syncDirtyRules s fqdn true true trackerDirty =
        if (rulesSelectingFQDN s fqdn).Nonempty
        then SyncAction.subscribeAndPoke (rulesSelectingFQDN s fqdn)
        else SyncAction.sendNil) := by
  exact ⟨rfl, rfl⟩

/-- C10: `onDNSResponse` on an empty IP map returns before touching any state:
the cache and selector maps are unchanged, no requery is scheduled, and when a
`waitCh` is present `nil` is sent at once — whatever the tracker's dirty rule
set contains. -/
theorem onDNSResponse_empty_response (s : FQDNState) (fqdn : String) (now : Int)
    (hasWaitCh : Bool) (trackerDirty : Finset String) :
    onDNSResponse s fqdn [] now hasWaitCh trackerDirty =
      (s, none, if hasWaitCh then SyncAction.sendNil else SyncAction.noAction) := rfl

/-- C9 counterexample: a failed `updateRuleSelectedPods` call *does* change
the rule-to-selected-pods mapping. With the old mapping `r1 ↦ {1}`, updating
`r1` to `{2}` while the datapath add fails returns an error, yet the mapping
now reads `r1 ↦ {2}`, not the original `{1}`. -/
theorem updateRuleSelectedPods_keeps_new_mapping_on_failure :
    (updateRuleSelectedPods [("r1", ({1} : Finset Int))] "r1" {2} true false).2 = true ∧
      alookup (updateRuleSelectedPods [("r1", ({1} : Finset Int))] "r1" {2} true false).1
          "r1" = some ({2} : Finset Int) ∧
      ({2} : Finset Int) ≠ ({1} : Finset Int) := by
  decide

/-- C9 (amended): a datapath programming failure in `updateRuleSelectedPods`
is surfaced to the caller, but the rule's entry has already been set to the
new pod set before the datapath calls and is not rolled back: the failed call
leaves the new mapping in place. -/
theorem updateRuleSelectedPods_amended (m : List (String × Finset Int)) (ruleID : String)
    (podOFAddrs : Finset Int) (addFails delFails : Bool) :
    (updateRuleSelectedPods m ruleID podOFAddrs addFails delFails).1 =
        aupsert m ruleID podOFAddrs ∧
      ((updateRuleSelectedPods m ruleID podOFAddrs addFails delFails).2 = true ↔
        ((podsUnion (aupsert m ruleID podOFAddrs) \ podsUnion m).Nonempty ∧ addFails = true) ∨
          ((podsUnion m \ podsUnion (aupsert m ruleID podOFAddrs)).Nonempty ∧
            delFails = true)) := by
  dsimp only [updateRuleSelectedPods]
  constructor
  · split_ifs <;> rfl
  · split_ifs with h1 h2 <;> simp_all

theorem parseDNSResponse_fold_floor (minTTL : Nat) (ipv4Enabled ipv6Enabled : Bool)
    (now : Int) (answer : List dnsAnswer) :
    ∀ acc : List (String × ipWithExpiration),
      (∀ q ∈ acc, (minTTL : Int) ≤ q.2.expirationTime - now) →
      ∀ q ∈ answer.foldl (fun m ans =>
        match ans with
        | dnsAnswer.A ip ttl =>
          if ipv4Enabled then
            aupsert m ip { ip := ip, expirationTime := now + (Nat.max minTTL ttl : Nat) }
          else m
        | dnsAnswer.AAAA ip ttl =>
          if ipv6Enabled then
            aupsert m ip { ip := ip, expirationTime := now + (Nat.max minTTL ttl : Nat) }
          else m
        | dnsAnswer.other => m) acc,
        (minTTL : Int) ≤ q.2.expirationTime - now := by
  induction answer with
  | nil => exact fun acc hacc q hq => hacc q hq
  | cons a rest ih =>
    intro acc hacc q hq
    rw [List.foldl_cons] at hq
    refine ih _ ?_ q hq
    intro q' hq'
    cases a with
    | A ip ttl =>
      by_cases h4 : ipv4Enabled
      · simp only [h4, if_true] at hq'
        rcases mem_aupsert _ _ _ _ hq' with h | h
        · subst h
          have : (minTTL : Int) ≤ (Nat.max minTTL ttl : Nat) := by
            exact_mod_cast Nat.le_max_left minTTL ttl
          simp only []
          omega
        · exact hacc q' h
      · simp only [h4, if_false] at hq'
        exact hacc q' hq'
    | AAAA ip ttl =>
      by_cases h6 : ipv6Enabled
      · simp only [h6, if_true] at hq'
        rcases mem_aupsert _ _ _ _ hq' with h | h
        · subst h
          have : (minTTL : Int) ≤ (Nat.max minTTL ttl : Nat) := by
            exact_mod_cast Nat.le_max_left minTTL ttl
          simp only []
          omega
        · exact hacc q' h
      · simp only [h6, if_false] at hq'
        exact hacc q' hq'
    | other => exact hacc q' hq'

theorem makeResponseIPs_fold_ttl (now : Int) (ips : List String) :
    ∀ acc : List (String × ipWithExpiration),
      (∀ q ∈ acc, q.2.expirationTime - now = (defaultTTL : Int)) →
      ∀ q ∈ ips.foldl (fun m ip =>
        aupsert m ip { ip := ip, expirationTime := now + (defaultTTL : Int) }) acc,
        q.2.expirationTime - now = (defaultTTL : Int) := by
  induction ips with
  | nil => exact fun acc hacc q hq => hacc q hq
  | cons ip rest ih =>
    intro acc hacc q hq
    rw [List.foldl_cons] at hq
    refine ih _ ?_ q hq
    intro q' hq'
    rcases mem_aupsert _ _ _ _ hq' with h | h
    · subst h
      simp only []
      omega
    · exact hacc q' h

/-- C4 (amended): every IP entry produced by `parseDNSResponse` (the
interception and proactive-query paths) expires at least `minTTL` seconds
after the response was received; entries produced by the host-resolver
fallback (`lookupIP` via `makeResponseIPs`) instead expire exactly
`defaultTTL` = 600 seconds after receipt, irrespective of `minTTL`. -/
theorem dnsEntry_ttl_floor_amended (minTTL : Nat) (ipv4Enabled ipv6Enabled : Bool)
    (now : Int) (question : List String) (answer : List dnsAnswer) (fqdn : String)
    (m : List (String × ipWithExpiration))
    (hparse : parseDNSResponse minTTL ipv4Enabled ipv6Enabled now question answer =
      some (fqdn, m)) :
    (∀ p ∈ m, (minTTL : Int) ≤ p.2.expirationTime - now) ∧
      (∀ (now2 : Int) (ips : List String) (p : String × ipWithExpiration),
        p ∈ makeResponseIPs now2 ips → p.2.expirationTime - now2 = (defaultTTL : Int)) := by
  constructor
  · cases question with
    | nil => exact absurd hparse (by simp [parseDNSResponse])
    | cons q rest =>
      rw [parseDNSResponse] at hparse
      have hm : m = answer.foldl (fun m ans =>
        match ans with
        | dnsAnswer.A ip ttl =>
          if ipv4Enabled then
            aupsert m ip { ip := ip, expirationTime := now + (Nat.max minTTL ttl : Nat) }
          else m
        | dnsAnswer.AAAA ip ttl =>
          if ipv6Enabled then
            aupsert m ip { ip := ip, expirationTime := now + (Nat.max minTTL ttl : Nat) }
          else m
        | dnsAnswer.other => m) [] := by
        cases hparse
        rfl
      intro p hp
      rw [hm] at hp
      exact parseDNSResponse_fold_floor minTTL ipv4Enabled ipv6Enabled now answer []
        (by intro q' hq'; cases hq') p hp
  · intro now2 ips p hp
    exact makeResponseIPs_fold_ttl now2 ips [] (by intro q' hq'; cases hq') p hp

/-- C4 witness: a concrete parse (minTTL 30, record TTL 60) and the theorem
applied to it. -/
theorem dnsEntry_ttl_floor_witness :
    parseDNSResponse 30 true true 0 ["example.com."] [dnsAnswer.A "10.0.0.1" 60] =
        some ("example.com",
          [("10.0.0.1", { ip := "10.0.0.1", expirationTime := 60 })]) ∧
      ((∀ p ∈ [("10.0.0.1",
          ({ ip := "10.0.0.1", expirationTime := 60 } : ipWithExpiration))],
          ((30 : Nat) : Int) ≤ p.2.expirationTime - 0) ∧
        (∀ (now2 : Int) (ips : List String) (p : String × ipWithExpiration),
          p ∈ makeResponseIPs now2 ips → p.2.expirationTime - now2 = (defaultTTL : Int))) :=
  ⟨by decide,
    dnsEntry_ttl_floor_amended 30 true true 0 ["example.com."]
      [dnsAnswer.A "10.0.0.1" 60] "example.com"
      [("10.0.0.1", { ip := "10.0.0.1", expirationTime := 60 })] (by decide)⟩

/-- C4 counterexample: with `minTTL = 601` the host-resolver path stores an
entry whose lifetime is only 600 seconds, breaking the claimed universal
`expirationTime - receiveTime ≥ minTTL` floor. -/
theorem lookupIP_ttl_breaks_minTTL_floor :
    alookup (makeResponseIPs 0 ["10.0.0.1"]) "10.0.0.1" =
        some { ip := "10.0.0.1", expirationTime := 600 } ∧
      ¬((601 : Int) ≤ 600 - 0) := by
  decide

/-- C5: in a merge of an already-cached FQDN, an IP present in the cache both
before and after never sees its expiration time shrink; an IP present in both
the old cache and the new response ends up with the later (max) of the two
expiration times. -/
theorem mergeCached_expiration_monotone
    (cachedIPs newIPs : List (String × ipWithExpiration)) (now : Int) (k : String)
    (hnodup : (akeys cachedIPs).Nodup) (mOld mNew : ipWithExpiration)
    (hold : alookup cachedIPs k = some mOld)
    (hnew : alookup (mergeCached cachedIPs newIPs now) k = some mNew) :
    mOld.expirationTime ≤ mNew.expirationTime ∧
      (∀ n, alookup newIPs k = some n →
        mNew.expirationTime = max n.expirationTime mOld.expirationTime) := by
  have hchar := alookup_mergeCached cachedIPs newIPs now k hnodup
  rw [hold] at hchar
  cases hn : alookup newIPs k with
  | none =>
    rw [hn] at hchar
    have hchar2 : alookup (mergeCached cachedIPs newIPs now) k =
        if mOld.expirationTime < now then none else some mOld := hchar
    by_cases hexp : mOld.expirationTime < now
    · rw [if_pos hexp] at hchar2
      rw [hchar2] at hnew
      cases hnew
    · rw [if_neg hexp] at hchar2
      rw [hchar2] at hnew
      cases hnew
      refine ⟨le_refl _, ?_⟩
      intro n hn2
      cases hn2
  | some n0 =>
    rw [hn] at hchar
    have hchar2 : alookup (mergeCached cachedIPs newIPs now) k =
        some { ip := mOld.ip,
               expirationTime := laterOf n0.expirationTime mOld.expirationTime } := hchar
    rw [hchar2] at hnew
    cases hnew
    constructor
    · rw [laterOf_eq_max]
      exact le_max_right _ _
    · intro n hn2
      cases hn2
      show laterOf n0.expirationTime mOld.expirationTime = _
      rw [laterOf_eq_max]

/-- C5 witness: cache `ip ↦ exp 10`, response `ip ↦ exp 5`; the merged entry
keeps expiration `max 5 10 = 10`. -/
theorem mergeCached_expiration_monotone_witness :
    ({ ip := "ip", expirationTime := 10 } : ipWithExpiration).expirationTime ≤
        ({ ip := "ip", expirationTime := 10 } : ipWithExpiration).expirationTime ∧
      (∀ n, alookup [("ip", ({ ip := "ip", expirationTime := 5 } : ipWithExpiration))]
          "ip" = some n →
        ({ ip := "ip", expirationTime := 10 } : ipWithExpiration).expirationTime =
          max n.expirationTime
            ({ ip := "ip", expirationTime := 10 } : ipWithExpiration).expirationTime) :=
  mergeCached_expiration_monotone
    [("ip", { ip := "ip", expirationTime := 10 })]
    [("ip", { ip := "ip", expirationTime := 5 })] 0 "ip" (by decide)
    { ip := "ip", expirationTime := 10 } { ip := "ip", expirationTime := 10 }
    (by decide) (by decide)

/-- C6: in a merge of an already-cached FQDN, a cached IP absent from the new
response is kept with its old expiration while unexpired, and is dropped with
`addressUpdate = true` once expired; moreover `addressUpdate` is set exactly
by a new uncached IP or by an expired absent cached IP (so an unexpired
absent IP never sets it by itself). -/
theorem mergeCached_absent_ip_policy
    (cachedIPs newIPs : List (String × ipWithExpiration)) (now : Int) (k : String)
    (hnodup : (akeys cachedIPs).Nodup) (m : ipWithExpiration)
    (hold : alookup cachedIPs k = some m) (habsent : alookup newIPs k = none) :
    (¬(m.expirationTime < now) →
      alookup (mergeCached cachedIPs newIPs now) k = some m) ∧
      (m.expirationTime < now →
        alookup (mergeCached cachedIPs newIPs now) k = none ∧
          addressUpdateCached cachedIPs newIPs now = true) ∧
      (addressUpdateCached cachedIPs newIPs now = true ↔
        (∃ p ∈ newIPs, alookup cachedIPs p.1 = none) ∨
          (∃ p ∈ cachedIPs, alookup newIPs p.1 = none ∧ p.2.expirationTime < now)) := by
  have hchar := alookup_mergeCached cachedIPs newIPs now k hnodup
  rw [hold, habsent] at hchar
  have hchar2 : alookup (mergeCached cachedIPs newIPs now) k =
      if m.expirationTime < now then none else some m := hchar
  have hiff : addressUpdateCached cachedIPs newIPs now = true ↔
      (∃ p ∈ newIPs, alookup cachedIPs p.1 = none) ∨
        (∃ p ∈ cachedIPs, alookup newIPs p.1 = none ∧ p.2.expirationTime < now) := by
    simp [addressUpdateCached, List.any_eq_true, Option.isNone_iff_eq_none]
  refine ⟨?_, ?_, hiff⟩
  · intro hexp
    rw [hchar2, if_neg hexp]
  · intro hexp
    refine ⟨by rw [hchar2, if_pos hexp], ?_⟩
    rw [hiff]
    exact Or.inr ⟨(k, m), alookup_mem cachedIPs k m hold, habsent, hexp⟩

/-- C6 witness: cache `a ↦ exp 10`, response for a different IP only, at time
20 (so `a` is expired): the theorem applied to this instance. -/
theorem mergeCached_absent_ip_policy_witness :
    (¬(({ ip := "a", expirationTime := 10 } : ipWithExpiration).expirationTime < 20) →
      alookup (mergeCached [("a", { ip := "a", expirationTime := 10 })]
          [("b", { ip := "b", expirationTime := 99 })] 20) "a" =
        some { ip := "a", expirationTime := 10 }) ∧
      (({ ip := "a", expirationTime := 10 } : ipWithExpiration).expirationTime < 20 →
        alookup (mergeCached [("a", { ip := "a", expirationTime := 10 })]
            [("b", { ip := "b", expirationTime := 99 })] 20) "a" = none ∧
          addressUpdateCached [("a", { ip := "a", expirationTime := 10 })]
            [("b", { ip := "b", expirationTime := 99 })] 20 = true) ∧
      (addressUpdateCached [("a", { ip := "a", expirationTime := 10 })]
          [("b", { ip := "b", expirationTime := 99 })] 20 = true ↔
        (∃ p ∈ [("b", ({ ip := "b", expirationTime := 99 } : ipWithExpiration))],
          alookup [("a", ({ ip := "a", expirationTime := 10 } : ipWithExpiration))]
            p.1 = none) ∨
          (∃ p ∈ [("a", ({ ip := "a", expirationTime := 10 } : ipWithExpiration))],
            alookup [("b", ({ ip := "b", expirationTime := 99 } : ipWithExpiration))]
              p.1 = none ∧ p.2.expirationTime < 20)) :=
  mergeCached_absent_ip_policy
    [("a", { ip := "a", expirationTime := 10 })]
    [("b", { ip := "b", expirationTime := 99 })] 20 "a" (by decide)
    { ip := "a", expirationTime := 10 } (by decide) (by decide)

theorem relevantUpdates_empty (us : List (String × Bool)) :
    relevantUpdates ∅ us = [] := by
  induction us with
  | nil => rfl
  | cons u rest ih => simp [relevantUpdates, ih]

theorem survivorsAfter_empty (us : List (String × Bool)) :
    survivorsAfter ∅ us = ∅ := by
  induction us with
  | nil => rfl
  | cons u rest ih => simp [survivorsAfter, ih]

theorem relevantUpdates_cons_mem (pending : Finset String) (u : String × Bool)
    (us : List (String × Bool)) (h : u.1 ∈ pending) :
    relevantUpdates pending (u :: us) = u :: relevantUpdates (pending.erase u.1) us := by
  simp [relevantUpdates, h]

theorem relevantUpdates_cons_not_mem (pending : Finset String) (u : String × Bool)
    (us : List (String × Bool)) (h : u.1 ∉ pending) :
    relevantUpdates pending (u :: us) = relevantUpdates pending us := by
  simp [relevantUpdates, h]

theorem survivorsAfter_cons (pending : Finset String) (u : String × Bool)
    (us : List (String × Bool)) :
    survivorsAfter pending (u :: us) = survivorsAfter (pending.erase u.1) us := rfl

theorem errorsOf_cons_fail (u : String × Bool) (l : List (String × Bool))
    (h : u.2 = false) : errorsOf (u :: l) = some u.1 :: errorsOf l := by
  simp [errorsOf, List.filter_cons, h]

theorem errorsOf_cons_ok (u : String × Bool) (l : List (String × Bool))
    (h : u.2 = true) : errorsOf (u :: l) = errorsOf l := by
  simp [errorsOf, List.filter_cons, h]

/-- A subscriber whose count already hit zero receives exactly one further
error per failed update of a rule still carrying it, and never a `nil`. -/
theorem subRunAll_count_zero (us : List (String × Bool)) :
    ∀ v : subView, v.rulesToSyncCount = 0 →
      (subRunAll v us).sent = v.sent ++ errorsOf (relevantUpdates v.pending us) := by
  induction us with
  | nil =>
    intro v h0
    simp [subRunAll, relevantUpdates, errorsOf]
  | cons u rest ih =>
    intro v h0
    rw [subRunAll, List.foldl_cons]
    rw [show (List.foldl subStep (subStep v u) rest) = subRunAll (subStep v u) rest
      from rfl]
    by_cases hu : u.1 ∈ v.pending
    · cases u2 : u.2 with
      | false =>
        have hstep : subStep v u =
            { rulesToSyncCount := 0, pending := v.pending.erase u.1,
              sent := v.sent ++ [some u.1] } := by
          simp [subStep, hu, notifySubscriber, u2]
        rw [hstep, ih _ rfl]
        rw [relevantUpdates_cons_mem _ _ _ hu, errorsOf_cons_fail u _ u2]
        simp
      | true =>
        have hstep : subStep v u =
            { rulesToSyncCount := 0, pending := v.pending.erase u.1, sent := v.sent } := by
          simp [subStep, hu, notifySubscriber, u2, h0]
        rw [hstep, ih _ rfl]
        rw [relevantUpdates_cons_mem _ _ _ hu, errorsOf_cons_ok u _ u2]
    · have hstep : subStep v u = v := by
        simp [subStep, hu]
      rw [hstep, ih _ h0]
      rw [relevantUpdates_cons_not_mem _ _ _ hu]

theorem sentSpec_cons_fail (pending : Finset String) (u : String × Bool)
    (us : List (String × Bool)) (hu : u.1 ∈ pending) (h : u.2 = false) :
    sentSpec pending (u :: us) =
      some u.1 :: errorsOf (relevantUpdates (pending.erase u.1) us) := by
  unfold sentSpec
  rw [relevantUpdates_cons_mem _ _ _ hu, errorsOf_cons_fail u _ h]
  simp

theorem sentSpec_cons_ok (pending : Finset String) (u : String × Bool)
    (us : List (String × Bool)) (hu : u.1 ∈ pending) (h : u.2 = true) :
    sentSpec pending (u :: us) = sentSpec (pending.erase u.1) us := by
  unfold sentSpec
  rw [relevantUpdates_cons_mem _ _ _ hu, errorsOf_cons_ok u _ h, survivorsAfter_cons]

theorem sentSpec_cons_skip (pending : Finset String) (u : String × Bool)
    (us : List (String × Bool)) (hu : u.1 ∉ pending) :
    sentSpec pending (u :: us) = sentSpec pending us := by
  unfold sentSpec
  rw [relevantUpdates_cons_not_mem _ _ _ hu, survivorsAfter_cons,
    Finset.erase_eq_of_not_mem hu]

theorem sentSpec_empty_pending (us : List (String × Bool)) :
    sentSpec ∅ us = [none] := by
  unfold sentSpec
  rw [relevantUpdates_empty, survivorsAfter_empty]
  simp [errorsOf]

/-- A subscriber whose count equals its pending-rule count (as `subscribe`
creates it) receives exactly the messages of `sentSpec`: the errors of the
failed relevant updates, then a single `nil` exactly when nothing failed and
every pending rule was updated. -/
theorem subRunAll_count_card (us : List (String × Bool)) :
    ∀ v : subView, v.rulesToSyncCount = v.pending.card → v.pending.Nonempty →
      (subRunAll v us).sent = v.sent ++ sentSpec v.pending us := by
  induction us with
  | nil =>
    intro v hcount hne
    have hnonempty : v.pending ≠ ∅ := Finset.nonempty_iff_ne_empty.mp hne
    simp [subRunAll, sentSpec, relevantUpdates, survivorsAfter, errorsOf, hnonempty]
  | cons u rest ih =>
    intro v hcount hne
    have hpos : 0 < v.pending.card := Finset.card_pos.mpr hne
    rw [subRunAll, List.foldl_cons]
    rw [show (List.foldl subStep (subStep v u) rest) = subRunAll (subStep v u) rest
      from rfl]
    by_cases hu : u.1 ∈ v.pending
    · cases u2 : u.2 with
      | false =>
        have hstep : subStep v u =
            { rulesToSyncCount := 0, pending := v.pending.erase u.1,
              sent := v.sent ++ [some u.1] } := by
          simp [subStep, hu, notifySubscriber, u2]
        rw [hstep, subRunAll_count_zero rest _ rfl,
          sentSpec_cons_fail _ _ _ hu u2]
        dsimp only
        simp
      | true =>
        by_cases hone : v.pending.card = 1
        · have herase : v.pending.erase u.1 = ∅ := by
            have hc := Finset.card_erase_of_mem hu
            rw [hone] at hc
            exact Finset.card_eq_zero.mp hc
          have hstep : subStep v u =
              { rulesToSyncCount := 0, pending := v.pending.erase u.1,
                sent := v.sent ++ [none] } := by
            have hc0 : ¬v.rulesToSyncCount = 0 := by omega
            have hc1 : v.rulesToSyncCount - 1 = 0 := by omega
            simp [subStep, hu, notifySubscriber, u2, hc0, hc1]
          rw [hstep, subRunAll_count_zero rest _ rfl,
            sentSpec_cons_ok _ _ _ hu u2, herase, sentSpec_empty_pending]
          dsimp only
          rw [relevantUpdates_empty]
          simp [errorsOf]
        · have hcard : (v.pending.erase u.1).card = v.pending.card - 1 :=
            Finset.card_erase_of_mem hu
          have hne2 : (v.pending.erase u.1).Nonempty := by
            rw [← Finset.card_pos, hcard]
            omega
          have hstep : subStep v u =
              { rulesToSyncCount := v.rulesToSyncCount - 1,
                pending := v.pending.erase u.1, sent := v.sent } := by
            have hc0 : ¬v.rulesToSyncCount = 0 := by omega
            have hc1 : ¬v.rulesToSyncCount - 1 = 0 := by
              rw [hcount]
              omega
            simp [subStep, hu, notifySubscriber, u2, hc0, hc1]
          rw [hstep, ih _ (by dsimp only; omega) (by dsimp only; exact hne2),
            sentSpec_cons_ok _ _ _ hu u2]
    · have hstep : subStep v u = v := by
        simp [subStep, hu]
      rw [hstep, ih _ hcount hne, sentSpec_cons_skip _ _ _ hu]

theorem get?_append_singleton_length {α : Type} (l : List α) (a : α) :
    (l ++ [a]).get? l.length = some a := by
  induction l with
  | nil => rfl
  | cons x t ih => simpa using ih

/-- The subscriber-notification fold of `trackerProcessUpdate`, observed at
one index: the subscriber at `i` is notified exactly once when `i` occurs in
the (duplicate-free) index list, and untouched otherwise. -/
theorem foldl_notify_get (r : String) (ok : Bool) :
    ∀ (idxs : List Nat), idxs.Nodup → ∀ (ss : List subRec) (i : Nat),
      (idxs.foldl (fun ss j =>
        match ss.get? j with
        | none => ss
        | some s => ss.set j (notifySubscriber s r ok)) ss).get? i =
      if i ∈ idxs then (ss.get? i).map (fun s => notifySubscriber s r ok)
      else ss.get? i := by
  intro idxs
  induction idxs with
  | nil =>
    intro _ ss i
    simp
  | cons j rest ih =>
    intro hnodup ss i
    have hnd := List.nodup_cons.mp hnodup
    rw [List.foldl_cons]
    by_cases hij : i = j
    · subst hij
      have hnotmem : i ∉ rest := hnd.1
      rw [ih hnd.2 _ i, if_neg hnotmem]
      cases hg : ss.get? i with
      | none =>
        rw [if_pos (List.mem_cons_self i rest)]
        show ss.get? i = (none : Option subRec)
        exact hg
      | some s =>
        have hlen : i < ss.length := by
          by_contra hc
          rw [List.get?_eq_none.mpr (by omega)] at hg
          cases hg
        rw [if_pos (List.mem_cons_self i rest)]
        show (ss.set i (notifySubscriber s r ok)).get? i =
          Option.map (fun s => notifySubscriber s r ok) (some s)
        rw [List.get?_set_eq_of_lt _ hlen]
        rfl
    · rw [ih hnd.2 _ i]
      have hskip : (match ss.get? j with
          | none => ss
          | some s => ss.set j (notifySubscriber s r ok)).get? i = ss.get? i := by
        cases hg : ss.get? j with
        | none => rfl
        | some s => exact List.get?_set_ne _ _ (fun hc => hij hc.symm)
      rw [hskip]
      by_cases hmem : i ∈ rest
      · rw [if_pos hmem, if_pos (List.mem_cons_of_mem _ hmem)]
      · rw [if_neg hmem, if_neg (by simp [hij, hmem])]
/-- Simulation relation between the full tracker state and the ghost view of
the subscriber at index `i`: the stored record agrees with the view, a rule
still carries `i` exactly when it is pending in the view, and no rule list
has duplicates. -/
def TrackerSim (ts : ruleSyncTrackerState) (i : Nat) (v : subView) : Prop :=
  ts.subscribers.get? i =
      some { rulesToSyncCount := v.rulesToSyncCount, sent := v.sent } ∧
    (∀ r, i ∈ ts.ruleToSubscribers r ↔ r ∈ v.pending) ∧
    (∀ r, (ts.ruleToSubscribers r).Nodup)

theorem TrackerSim_step (ts : ruleSyncTrackerState) (i : Nat) (v : subView)
    (u : String × Bool) (h : TrackerSim ts i v) :
    TrackerSim (trackerProcessUpdate ts u) i (subStep v u) := by
  obtain ⟨h1, h2, h3⟩ := h
  have hsubs : (trackerProcessUpdate ts u).subscribers =
      (ts.ruleToSubscribers u.1).foldl (fun ss j =>
        match ss.get? j with
        | none => ss
        | some s => ss.set j (notifySubscriber s u.1 u.2)) ts.subscribers := rfl
  have hlists : ∀ r, (trackerProcessUpdate ts u).ruleToSubscribers r =
      if r = u.1 then [] else ts.ruleToSubscribers r := fun r => rfl
  refine ⟨?_, ?_, ?_⟩
  · rw [hsubs, foldl_notify_get u.1 u.2 _ (h3 u.1) ts.subscribers i]
    by_cases hu : u.1 ∈ v.pending
    · rw [if_pos ((h2 u.1).mpr hu), h1]
      have hstep : subStep v u =
          ⟨(notifySubscriber ⟨v.rulesToSyncCount, v.sent⟩ u.1 u.2).rulesToSyncCount,
            v.pending.erase u.1,
            (notifySubscriber ⟨v.rulesToSyncCount, v.sent⟩ u.1 u.2).sent⟩ := by
        rw [subStep, if_pos hu]
      rw [hstep]
      rfl
    · rw [if_neg (fun hc => hu ((h2 u.1).mp hc)), h1]
      have hstep : subStep v u = v := by
        rw [subStep, if_neg hu]
      rw [hstep]
  · intro r
    rw [hlists r]
    by_cases hr : r = u.1
    · rw [if_pos hr]
      simp only [List.not_mem_nil, false_iff]
      rw [subStep]
      by_cases hu : u.1 ∈ v.pending
      · rw [if_pos hu, hr]
        exact Finset.not_mem_erase u.1 v.pending
      · rw [if_neg hu, hr]
        exact hu
    · rw [if_neg hr, h2 r, subStep]
      by_cases hu : u.1 ∈ v.pending
      · rw [if_pos hu]
        show r ∈ v.pending ↔ r ∈ v.pending.erase u.1
        rw [Finset.mem_erase]
        exact ⟨fun hm => ⟨hr, hm⟩, fun hm => hm.2⟩
      · rw [if_neg hu]
  · intro r
    rw [hlists r]
    by_cases hr : r = u.1
    · rw [if_pos hr]
      exact List.nodup_nil
    · rw [if_neg hr]
      exact h3 r


theorem TrackerSim_run (us : List (String × Bool)) :
    ∀ (ts : ruleSyncTrackerState) (i : Nat) (v : subView), TrackerSim ts i v →
      TrackerSim (trackerRun ts us) i (subRunAll v us) := by
  induction us with
  | nil => exact fun ts i v h => h
  | cons u rest ih =>
    intro ts i v h
    rw [trackerRun, List.foldl_cons]
    rw [show subRunAll v (u :: rest) = subRunAll (subStep v u) rest from rfl]
    exact ih _ i _ (TrackerSim_step ts i v u h)

theorem TrackerSim_subscribe (ts : ruleSyncTrackerState) (hwf : TrackerWF ts)
    (dirtyRules : Finset String) :
    TrackerSim (trackerSubscribe ts dirtyRules) ts.subscribers.length
      { rulesToSyncCount := dirtyRules.card, pending := dirtyRules, sent := [] } := by
  obtain ⟨hnd, hbound⟩ := hwf
  have hsubs : (trackerSubscribe ts dirtyRules).subscribers =
      ts.subscribers ++ [⟨dirtyRules.card, []⟩] := rfl
  have hlists : ∀ r, (trackerSubscribe ts dirtyRules).ruleToSubscribers r =
      if r ∈ dirtyRules then ts.ruleToSubscribers r ++ [ts.subscribers.length]
      else ts.ruleToSubscribers r := fun r => rfl
  refine ⟨?_, ?_, ?_⟩
  · rw [hsubs, get?_append_singleton_length]
  · intro r
    rw [hlists r]
    by_cases hr : r ∈ dirtyRules
    · simp [hr]
    · rw [if_neg hr]
      constructor
      · intro hc
        exact absurd (hbound r _ hc) (lt_irrefl _)
      · intro hc
        exact absurd hc hr
  · intro r
    rw [hlists r]
    by_cases hr : r ∈ dirtyRules
    · rw [if_pos hr, List.nodup_append]
      refine ⟨hnd r, List.nodup_singleton _, ?_⟩
      intro x hx hx2
      rw [List.mem_singleton] at hx2
      subst hx2
      exact absurd (hbound r _ hx) (lt_irrefl _)
    · rw [if_neg hr]
      exact hnd r


/-- C2 (amended): a subscriber registered by `subscribe` with a non-empty
dirty rule set receives, over any sequence of realization updates processed
by `Run`, exactly the values of `sentSpec`: one error per subscribed rule
whose (first) update is a failure, and a single `nil` exactly when no such
failure occurs and all its rules are updated. In particular it receives
exactly one value when at most one of its rules fails, but one error per
failing rule — hence more than one value — when several fail. -/
theorem ruleSyncTracker_subscriber_sent (ts : ruleSyncTrackerState)
    (hwf : TrackerWF ts) (dirtyRules : Finset String) (hne : dirtyRules.Nonempty)
    (us : List (String × Bool)) :
    ((trackerRun (trackerSubscribe ts dirtyRules) us).subscribers.get?
        ts.subscribers.length).map subRec.sent = some (sentSpec dirtyRules us) := by
  have hsim := TrackerSim_run us _ ts.subscribers.length _
    (TrackerSim_subscribe ts hwf dirtyRules)
  rw [hsim.1]
  have hrun := subRunAll_count_card us ⟨dirtyRules.card, dirtyRules, []⟩ rfl hne
  show some (subRunAll ⟨dirtyRules.card, dirtyRules, []⟩ us).sent =
    some (sentSpec dirtyRules us)
  rw [hrun]
  rfl

/-- C2 witness: the empty tracker, a subscriber on the single rule `a`, and a
successful realization of `a`: the subscriber receives exactly `[none]`. -/
theorem ruleSyncTracker_subscriber_sent_witness :
    TrackerWF { subscribers := [], ruleToSubscribers := fun _ => [], dirtyRules := ∅ } ∧
      ({"a"} : Finset String).Nonempty ∧
      ((trackerRun (trackerSubscribe
          { subscribers := [], ruleToSubscribers := fun _ => [], dirtyRules := ∅ }
          {"a"}) [("a", true)]).subscribers.get? 0).map subRec.sent =
        some (sentSpec {"a"} [("a", true)]) :=
  ⟨⟨fun _ => List.nodup_nil, fun r i h => absurd h (List.not_mem_nil i)⟩,
    by decide,
    ruleSyncTracker_subscriber_sent
      { subscribers := [], ruleToSubscribers := fun _ => [], dirtyRules := ∅ }
      ⟨fun _ => List.nodup_nil, fun r i h => absurd h (List.not_mem_nil i)⟩
      {"a"} (by decide) [("a", true)]⟩

/-- C2 counterexample: a subscriber on the two rules `a` and `b` whose
realizations both fail receives two values on its `waitCh` (one error per
failing rule), not exactly one. -/
theorem ruleSyncTracker_two_failures_two_values :
    ((trackerRun (trackerSubscribe
        { subscribers := [], ruleToSubscribers := fun _ => [], dirtyRules := ∅ }
        {"a", "b"}) [("a", false), ("b", false)]).subscribers.get? 0).map
      subRec.sent = some [some "a", some "b"] := by
  decide

theorem foldl_union_init (l : List (Finset String)) :
    ∀ a : Finset String, l.foldl (fun x y => x ∪ y) a =
      a ∪ l.foldl (fun x y => x ∪ y) ∅ := by
  induction l with
  | nil =>
    intro a
    simp
  | cons x t ih =>
    intro a
    rw [List.foldl_cons, List.foldl_cons, ih (a ∪ x), ih (∅ ∪ x)]
    rw [Finset.empty_union, Finset.union_assoc]

theorem getIPsForFQDNSelectorsSpec_cons (s : FQDNState) (fqdn : String)
    (rest : List String) :
    getIPsForFQDNSelectorsSpec s (fqdn :: rest) =
      (match s.selectorItemToFQDN (fqdnToSelectorItem fqdn) with
        | none => ∅
        | some fqdnsMatched => matchedIPsOf s fqdnsMatched) ∪
        getIPsForFQDNSelectorsSpec s rest := by
  unfold getIPsForFQDNSelectorsSpec
  rw [List.map_cons, List.foldl_cons, foldl_union_init, Finset.empty_union]

theorem getIPsForFQDNSelectorsAux_all_known (s : FQDNState) :
    ∀ (fqdns : List String),
      (∀ fqdn ∈ fqdns, (s.selectorItemToFQDN (fqdnToSelectorItem fqdn)).isSome) →
      ∀ acc : Finset String, getIPsForFQDNSelectorsAux s acc fqdns =
        acc ∪ getIPsForFQDNSelectorsSpec s fqdns := by
  intro fqdns
  induction fqdns with
  | nil =>
    intro _ acc
    show acc = acc ∪ getIPsForFQDNSelectorsSpec s []
    rw [show getIPsForFQDNSelectorsSpec s [] = ∅ from rfl, Finset.union_empty]
  | cons fqdn rest ih =>
    intro hknown acc
    rw [getIPsForFQDNSelectorsSpec_cons]
    cases hsel : s.selectorItemToFQDN (fqdnToSelectorItem fqdn) with
    | none =>
      have := hknown fqdn (List.mem_cons_self _ _)
      rw [hsel] at this
      cases this
    | some fqdnsMatched =>
      rw [show getIPsForFQDNSelectorsAux s acc (fqdn :: rest) =
        (match s.selectorItemToFQDN (fqdnToSelectorItem fqdn) with
          | none => acc
          | some m => getIPsForFQDNSelectorsAux s (acc ∪ matchedIPsOf s m) rest)
        from rfl]
      rw [hsel]
      show getIPsForFQDNSelectorsAux s (acc ∪ matchedIPsOf s fqdnsMatched) rest =
        acc ∪ (matchedIPsOf s fqdnsMatched ∪ getIPsForFQDNSelectorsSpec s rest)
      rw [ih (fun f hf => hknown f (List.mem_cons_of_mem _ hf))
        (acc ∪ matchedIPsOf s fqdnsMatched)]
      rw [Finset.union_assoc]

/-- C8 (amended): `getIPsForFQDNSelectors` walks the FQDN expressions in
order and accumulates the union of the cached IPs matched by each derived
selector item, but an expression whose selector item is unknown (absent from
`selectorItemToFQDN`) returns only the IPs accumulated so far, dropping the
remaining expressions; when every expression's selector item is known the
result is the full union claimed by the specification. -/
theorem getIPsForFQDNSelectors_all_known (s : FQDNState) (fqdns : List String)
    (hknown : ∀ fqdn ∈ fqdns,
      (s.selectorItemToFQDN (fqdnToSelectorItem fqdn)).isSome) :
    getIPsForFQDNSelectors s fqdns = getIPsForFQDNSelectorsSpec s fqdns := by
  unfold getIPsForFQDNSelectors
  rw [getIPsForFQDNSelectorsAux_all_known s fqdns hknown ∅, Finset.empty_union]

/-- C8 witness: a state with one linked selector for `a.com` and one cached
IP; the theorem applied to the singleton query list. -/
theorem getIPsForFQDNSelectors_all_known_witness :
    (∀ fqdn ∈ ["a.com"],
      ((runFQDNOps [FQDNOp.addSelector "r1" ["a.com"],
        FQDNOp.dnsResponse "a.com" [("10.0.0.1", { ip := "10.0.0.1", expirationTime := 100 })]
          0 false ∅]).selectorItemToFQDN (fqdnToSelectorItem fqdn)).isSome) ∧
      getIPsForFQDNSelectors (runFQDNOps [FQDNOp.addSelector "r1" ["a.com"],
        FQDNOp.dnsResponse "a.com" [("10.0.0.1", { ip := "10.0.0.1", expirationTime := 100 })]
          0 false ∅]) ["a.com"] =
        getIPsForFQDNSelectorsSpec (runFQDNOps [FQDNOp.addSelector "r1" ["a.com"],
          FQDNOp.dnsResponse "a.com"
            [("10.0.0.1", { ip := "10.0.0.1", expirationTime := 100 })] 0 false ∅])
          ["a.com"] :=
  ⟨by decide,
    getIPsForFQDNSelectors_all_known _ ["a.com"] (by decide)⟩

/-- C8 counterexample: in a reachable state where the wildcard selector
`*.nomatch.com` is registered but linked to no name while `a.com` is cached
with an IP, querying `["*.nomatch.com", "a.com"]` returns the empty set — the
unknown selector truncates the walk — although the union over the expressions
contains the cached IP. -/
theorem getIPsForFQDNSelectors_not_union :
    getIPsForFQDNSelectors (runFQDNOps [FQDNOp.addSelector "r1" ["a.com"],
        FQDNOp.addSelector "r2" ["*.nomatch.com"],
        FQDNOp.dnsResponse "a.com" [("10.0.0.1", { ip := "10.0.0.1", expirationTime := 100 })]
          0 false ∅]) ["*.nomatch.com", "a.com"] = ∅ ∧
      getIPsForFQDNSelectorsSpec (runFQDNOps [FQDNOp.addSelector "r1" ["a.com"],
        FQDNOp.addSelector "r2" ["*.nomatch.com"],
        FQDNOp.dnsResponse "a.com" [("10.0.0.1", { ip := "10.0.0.1", expirationTime := 100 })]
          0 false ∅]) ["*.nomatch.com", "a.com"] = {"10.0.0.1"} := by
  decide

/-- The strengthened selector-map invariant of the `fqdnController`:
(1) the FQDN-to-selector and selector-to-FQDN maps are mutual inverses;
(2) every linked selector is registered (a key of `selectorItemToRuleIDs`)
and matches the name it is linked to;
(3) every cached name is linked to at least one selector. -/
def SelMapsInv (s : FQDNState) : Prop :=
  (∀ f sel, sel ∈ s.fqdnToSelectorItem f ↔ f ∈ (s.selectorItemToFQDN sel).getD ∅) ∧
    (∀ f sel, sel ∈ s.fqdnToSelectorItem f →
      (alookup s.selectorItemToRuleIDs sel).isSome = true ∧ sel.matches f = true) ∧
    (∀ f, (alookup s.dnsEntryCache f).isSome = true → (s.fqdnToSelectorItem f).Nonempty)

theorem SelMapsInv_init : SelMapsInv initFQDNState := by
  refine ⟨?_, ?_, ?_⟩
  · intro f sel
    simp [initFQDNState]
  · intro f sel h
    simp [initFQDNState] at h
  · intro f h
    simp [initFQDNState, alookup] at h

theorem setFQDNMatchSelector_fqdnToSelectorItem (s : FQDNState) (f0 : String)
    (sel0 : fqdnSelectorItem) (g : String) :
    (setFQDNMatchSelector s f0 sel0).fqdnToSelectorItem g =
      if g = f0 then insert sel0 (s.fqdnToSelectorItem g)
      else s.fqdnToSelectorItem g := rfl

theorem setFQDNMatchSelector_linked_getD (s : FQDNState) (f0 : String)
    (sel0 : fqdnSelectorItem) (t : fqdnSelectorItem) :
    ((setFQDNMatchSelector s f0 sel0).selectorItemToFQDN t).getD ∅ =
      if t = sel0 then insert f0 ((s.selectorItemToFQDN t).getD ∅)
      else (s.selectorItemToFQDN t).getD ∅ := by
  show ((if t = sel0 then
      match s.selectorItemToFQDN t with
      | none => some {f0}
      | some matchedFQDNs => some (insert f0 matchedFQDNs)
    else s.selectorItemToFQDN t).getD ∅) = _
  by_cases ht : t = sel0
  · rw [if_pos ht, if_pos ht]
    cases hm : s.selectorItemToFQDN t with
    | none => rfl
    | some m => rfl
  · rw [if_neg ht, if_neg ht]

theorem setFQDNMatchSelector_ruleIDs (s : FQDNState) (f0 : String)
    (sel0 : fqdnSelectorItem) :
    (setFQDNMatchSelector s f0 sel0).selectorItemToRuleIDs =
      s.selectorItemToRuleIDs := rfl

theorem setFQDNMatchSelector_cache (s : FQDNState) (f0 : String)
    (sel0 : fqdnSelectorItem) :
    (setFQDNMatchSelector s f0 sel0).dnsEntryCache = s.dnsEntryCache := rfl

theorem setFQDNMatchSelector_mono (s : FQDNState) (f0 : String)
    (sel0 : fqdnSelectorItem) (g : String) (t : fqdnSelectorItem)
    (h : t ∈ s.fqdnToSelectorItem g) :
    t ∈ (setFQDNMatchSelector s f0 sel0).fqdnToSelectorItem g := by
  rw [setFQDNMatchSelector_fqdnToSelectorItem]
  by_cases hg : g = f0
  · rw [if_pos hg]
    exact Finset.mem_insert_of_mem h
  · rw [if_neg hg]
    exact h

theorem setFQDNMatchSelector_self (s : FQDNState) (f0 : String)
    (sel0 : fqdnSelectorItem) :
    sel0 ∈ (setFQDNMatchSelector s f0 sel0).fqdnToSelectorItem f0 := by
  rw [setFQDNMatchSelector_fqdnToSelectorItem, if_pos rfl]
  exact Finset.mem_insert_self _ _

theorem SelMapsInv_setFQDNMatchSelector (s : FQDNState) (f0 : String)
    (sel0 : fqdnSelectorItem) (hinv : SelMapsInv s)
    (hreg : (alookup s.selectorItemToRuleIDs sel0).isSome = true)
    (hmatch : sel0.matches f0 = true) :
    SelMapsInv (setFQDNMatchSelector s f0 sel0) := by
  obtain ⟨hA, hB, hC⟩ := hinv
  refine ⟨?_, ?_, ?_⟩
  · intro g t
    rw [setFQDNMatchSelector_fqdnToSelectorItem, setFQDNMatchSelector_linked_getD]
    by_cases hg : g = f0
    · rw [if_pos hg]
      by_cases ht : t = sel0
      · rw [if_pos ht, ht, hg]
        simp
      · rw [if_neg ht, Finset.mem_insert]
        constructor
        · intro hc
          rcases hc with hc | hc
          · exact absurd hc ht
          · exact (hA g t).mp hc
        · intro hc
          exact Or.inr ((hA g t).mpr hc)
    · rw [if_neg hg]
      by_cases ht : t = sel0
      · rw [if_pos ht, Finset.mem_insert]
        constructor
        · intro hc
          exact Or.inr ((hA g t).mp hc)
        · intro hc
          rcases hc with hc | hc
          · exact absurd hc hg
          · exact (hA g t).mpr hc
      · rw [if_neg ht]
        exact hA g t
  · intro g t hmem
    rw [setFQDNMatchSelector_ruleIDs]
    rw [setFQDNMatchSelector_fqdnToSelectorItem] at hmem
    by_cases hg : g = f0
    · rw [if_pos hg] at hmem
      rcases Finset.mem_insert.mp hmem with hc | hc
      · subst hc
        rw [hg]
        exact ⟨hreg, hmatch⟩
      · exact hB g t hc
    · rw [if_neg hg] at hmem
      exact hB g t hmem
  · intro f hf
    rw [setFQDNMatchSelector_cache] at hf
    rw [setFQDNMatchSelector_fqdnToSelectorItem]
    by_cases hg : f = f0
    · rw [if_pos hg]
      exact Finset.insert_nonempty _ _
    · rw [if_neg hg]
      exact hC f hf

/-- Links only grow along the first-resolution selector scan. -/
theorem foldl_link_mono (fqdn : String) (sels : List fqdnSelectorItem) :
    ∀ (s : FQDNState) (g : String) (t : fqdnSelectorItem),
      t ∈ s.fqdnToSelectorItem g →
      t ∈ (sels.foldl (fun st selectorItem =>
        if selectorItem.matches fqdn then setFQDNMatchSelector st fqdn selectorItem
        else st) s).fqdnToSelectorItem g := by
  induction sels with
  | nil => exact fun s g t h => h
  | cons sel0 rest ih =>
    intro s g t h
    rw [List.foldl_cons]
    by_cases hm : sel0.matches fqdn
    · rw [if_pos hm]
      exact ih _ g t (setFQDNMatchSelector_mono s fqdn sel0 g t h)
    · rw [if_neg hm]
      exact ih s g t h

/-- The regex scan of `addFQDNSelector`: folding `setFQDNMatchSelector` over
any list of names preserves the invariant and leaves the rule map and the
cache untouched. -/
theorem SelMapsInv_scan_cache (sel0 : fqdnSelectorItem) (keys : List String) :
    ∀ s : FQDNState, SelMapsInv s →
      (alookup s.selectorItemToRuleIDs sel0).isSome = true →
      SelMapsInv (keys.foldl (fun st f =>
          if sel0.matches f then setFQDNMatchSelector st f sel0 else st) s) ∧
        (keys.foldl (fun st f =>
          if sel0.matches f then setFQDNMatchSelector st f sel0 else st)
            s).selectorItemToRuleIDs = s.selectorItemToRuleIDs ∧
        (keys.foldl (fun st f =>
          if sel0.matches f then setFQDNMatchSelector st f sel0 else st)
            s).dnsEntryCache = s.dnsEntryCache := by
  induction keys with
  | nil => exact fun s hinv _ => ⟨hinv, rfl, rfl⟩
  | cons f rest ih =>
    intro s hinv hreg
    rw [List.foldl_cons]
    by_cases hm : sel0.matches f
    · rw [if_pos hm]
      have h1 := SelMapsInv_setFQDNMatchSelector s f sel0 hinv hreg hm
      have h2 := ih (setFQDNMatchSelector s f sel0) h1
        (by rw [setFQDNMatchSelector_ruleIDs]; exact hreg)
      exact ⟨h2.1, by rw [h2.2.1, setFQDNMatchSelector_ruleIDs],
        by rw [h2.2.2, setFQDNMatchSelector_cache]⟩
    · rw [if_neg hm]
      exact ih s hinv hreg

/-- The first-resolution scan of `onDNSResponse`: linking every matching
registered selector to the new name preserves the invariant, changes neither
the rule map nor the cache, and afterwards every matching selector of the
list is linked to the name. -/
theorem SelMapsInv_scan_selectors (fqdn : String) (sels : List fqdnSelectorItem) :
    ∀ s : FQDNState, SelMapsInv s →
      (∀ sel ∈ sels, (alookup s.selectorItemToRuleIDs sel).isSome = true) →
      SelMapsInv (sels.foldl (fun st selectorItem =>
          if selectorItem.matches fqdn then setFQDNMatchSelector st fqdn selectorItem
          else st) s) ∧
        (sels.foldl (fun st selectorItem =>
          if selectorItem.matches fqdn then setFQDNMatchSelector st fqdn selectorItem
          else st) s).selectorItemToRuleIDs = s.selectorItemToRuleIDs ∧
        (sels.foldl (fun st selectorItem =>
          if selectorItem.matches fqdn then setFQDNMatchSelector st fqdn selectorItem
          else st) s).dnsEntryCache = s.dnsEntryCache ∧
        (∀ sel ∈ sels, sel.matches fqdn = true →
          sel ∈ (sels.foldl (fun st selectorItem =>
            if selectorItem.matches fqdn then setFQDNMatchSelector st fqdn selectorItem
            else st) s).fqdnToSelectorItem fqdn) := by
  induction sels with
  | nil =>
    intro s hinv _
    refine ⟨hinv, rfl, rfl, ?_⟩
    intro sel hsel
    cases hsel
  | cons sel0 rest ih =>
    intro s hinv hreg
    rw [List.foldl_cons]
    by_cases hm : sel0.matches fqdn
    · rw [if_pos hm]
      have h1 := SelMapsInv_setFQDNMatchSelector s fqdn sel0 hinv
        (hreg sel0 (List.mem_cons_self _ _)) hm
      have h2 := ih (setFQDNMatchSelector s fqdn sel0) h1
        (by
          intro sel hsel
          rw [setFQDNMatchSelector_ruleIDs]
          exact hreg sel (List.mem_cons_of_mem _ hsel))
      refine ⟨h2.1, by rw [h2.2.1, setFQDNMatchSelector_ruleIDs],
        by rw [h2.2.2.1, setFQDNMatchSelector_cache], ?_⟩
      intro sel hsel hmatch
      rcases List.mem_cons.mp hsel with hc | hc
      · subst hc
        have hself := setFQDNMatchSelector_self s fqdn sel
        exact foldl_link_mono fqdn rest (setFQDNMatchSelector s fqdn sel) fqdn sel hself
      · exact h2.2.2.2 sel hc hmatch
    · rw [if_neg hm]
      have h2 := ih s hinv (fun sel hsel => hreg sel (List.mem_cons_of_mem _ hsel))
      refine ⟨h2.1, h2.2.1, h2.2.2.1, ?_⟩
      intro sel hsel hmatch
      rcases List.mem_cons.mp hsel with hc | hc
      · subst hc
        exact absurd hmatch (by simpa using hm)
      · exact h2.2.2.2 sel hc hmatch

theorem SelMapsInv_ruleIDs_aupsert (s : FQDNState) (k : fqdnSelectorItem)
    (v : Finset String) (hinv : SelMapsInv s) :
    SelMapsInv { s with selectorItemToRuleIDs := aupsert s.selectorItemToRuleIDs k v } := by
  obtain ⟨hA, hB, hC⟩ := hinv
  refine ⟨hA, ?_, hC⟩
  intro f sel h
  have hb := hB f sel h
  refine ⟨?_, hb.2⟩
  show (alookup (aupsert s.selectorItemToRuleIDs k v) sel).isSome = true
  rw [alookup_aupsert]
  by_cases hk : sel = k
  · rw [if_pos hk]
    rfl
  · rw [if_neg hk]
    exact hb.1

theorem SelMapsInv_cache_aupsert (s : FQDNState) (f0 : String)
    (m : List (String × ipWithExpiration)) (hinv : SelMapsInv s)
    (hne : (s.fqdnToSelectorItem f0).Nonempty) :
    SelMapsInv { s with dnsEntryCache := aupsert s.dnsEntryCache f0 m } := by
  obtain ⟨hA, hB, hC⟩ := hinv
  refine ⟨hA, hB, ?_⟩
  intro f hf
  have hf2 : (alookup (aupsert s.dnsEntryCache f0 m) f).isSome = true := hf
  rw [alookup_aupsert] at hf2
  by_cases hff : f = f0
  · rw [hff]
    exact hne
  · rw [if_neg hff] at hf2
    exact hC f hf2

theorem SelMapsInv_cleanup (s : FQDNState) (fs : fqdnSelectorItem)
    (hinv : SelMapsInv s) : SelMapsInv (cleanupFQDNSelectorItem s fs) := by
  obtain ⟨hA, hB, hC⟩ := hinv
  have hsels : ∀ g, (cleanupFQDNSelectorItem s fs).fqdnToSelectorItem g =
      if g ∈ (s.selectorItemToFQDN fs).getD ∅ then (s.fqdnToSelectorItem g).erase fs
      else s.fqdnToSelectorItem g := fun g => rfl
  have hsfq : ∀ t, (cleanupFQDNSelectorItem s fs).selectorItemToFQDN t =
      if t = fs then none else s.selectorItemToFQDN t := fun t => rfl
  have hrul : (cleanupFQDNSelectorItem s fs).selectorItemToRuleIDs =
      aerase s.selectorItemToRuleIDs fs := rfl
  have hcache : (cleanupFQDNSelectorItem s fs).dnsEntryCache =
      s.dnsEntryCache.filter (fun p =>
        !(decide (p.1 ∈ (s.selectorItemToFQDN fs).getD ∅) &&
          decide (fs ∈ s.fqdnToSelectorItem p.1) &&
          decide ((s.fqdnToSelectorItem p.1).erase fs = ∅))) := rfl
  have hmem : ∀ g t, t ∈ (cleanupFQDNSelectorItem s fs).fqdnToSelectorItem g →
      t ∈ s.fqdnToSelectorItem g ∧ t ≠ fs := by
    intro g t h
    rw [hsels g] at h
    by_cases hg : g ∈ (s.selectorItemToFQDN fs).getD ∅
    · rw [if_pos hg] at h
      have h2 := Finset.mem_erase.mp h
      exact ⟨h2.2, h2.1⟩
    · rw [if_neg hg] at h
      refine ⟨h, ?_⟩
      intro hc
      subst hc
      exact hg ((hA g t).mp h)
  refine ⟨?_, ?_, ?_⟩
  · intro g t
    rw [hsels g, hsfq t]
    by_cases ht : t = fs
    · rw [if_pos ht]
      refine iff_of_false ?_ (by simp)
      intro hc
      rcases hmem g t (by rw [hsels g]; exact hc) with ⟨_, hne⟩
      exact hne ht
    · rw [if_neg ht]
      by_cases hg : g ∈ (s.selectorItemToFQDN fs).getD ∅
      · rw [if_pos hg, Finset.mem_erase]
        constructor
        · intro hc
          exact (hA g t).mp hc.2
        · intro hc
          exact ⟨ht, (hA g t).mpr hc⟩
      · rw [if_neg hg]
        exact hA g t
  · intro g t h
    rcases hmem g t h with ⟨hold, hne⟩
    have hb := hB g t hold
    refine ⟨?_, hb.2⟩
    rw [hrul, alookup_aerase, if_neg hne]
    exact hb.1
  · intro f hf
    rw [hcache, alookup_filter_key s.dnsEntryCache
      (fun x => !(decide (x ∈ (s.selectorItemToFQDN fs).getD ∅) &&
        decide (fs ∈ s.fqdnToSelectorItem x) &&
        decide ((s.fqdnToSelectorItem x).erase fs = ∅))) f] at hf
    by_cases hpred : (!(decide (f ∈ (s.selectorItemToFQDN fs).getD ∅) &&
        decide (fs ∈ s.fqdnToSelectorItem f) &&
        decide ((s.fqdnToSelectorItem f).erase fs = ∅))) = true
    · rw [if_pos hpred] at hf
      have hold := hC f hf
      have hnotall : ¬(f ∈ (s.selectorItemToFQDN fs).getD ∅ ∧
          fs ∈ s.fqdnToSelectorItem f ∧ (s.fqdnToSelectorItem f).erase fs = ∅) := by
        intro hc
        simp [hc.1, hc.2.1, hc.2.2] at hpred
      rw [hsels f]
      by_cases hg : f ∈ (s.selectorItemToFQDN fs).getD ∅
      · rw [if_pos hg]
        by_cases hfs : fs ∈ s.fqdnToSelectorItem f
        · have hne : (s.fqdnToSelectorItem f).erase fs ≠ ∅ := by
            intro hc
            exact hnotall ⟨hg, hfs, hc⟩
          exact Finset.nonempty_iff_ne_empty.mpr hne
        · rw [Finset.erase_eq_of_not_mem hfs]
          exact hold
      · rw [if_neg hg]
        exact hold
    · rw [if_neg hpred] at hf
      cases hf

theorem SelMapsInv_addFQDNSelectorOne (s : FQDNState) (ruleID fqdn : String)
    (hinv : SelMapsInv s) : SelMapsInv (addFQDNSelectorOne s ruleID fqdn) := by
  simp only [addFQDNSelectorOne]
  split
  · split
    · refine (SelMapsInv_scan_cache (fqdnToSelectorItem fqdn) _ _ ?_ ?_).1
      · exact SelMapsInv_ruleIDs_aupsert s _ _ hinv
      · show (alookup (aupsert s.selectorItemToRuleIDs (fqdnToSelectorItem fqdn)
          {ruleID}) (fqdnToSelectorItem fqdn)).isSome = true
        rw [alookup_aupsert, if_pos rfl]
        rfl
    · rename_i hre
      refine SelMapsInv_setFQDNMatchSelector _ _ _
        (SelMapsInv_ruleIDs_aupsert s _ _ hinv) ?_ ?_
      · show (alookup (aupsert s.selectorItemToRuleIDs (fqdnToSelectorItem fqdn)
          {ruleID}) (fqdnToSelectorItem fqdn)).isSome = true
        rw [alookup_aupsert, if_pos rfl]
        rfl
      · simp only [fqdnSelectorItem.matches, if_neg hre]
        exact beq_self_eq_true _
  · exact SelMapsInv_ruleIDs_aupsert s _ _ hinv

theorem SelMapsInv_deleteFQDNSelectorOne (s : FQDNState) (ruleID fqdn : String)
    (hinv : SelMapsInv s) : SelMapsInv (deleteFQDNSelectorOne s ruleID fqdn) := by
  simp only [deleteFQDNSelectorOne]
  split
  · exact hinv
  · split
    · split
      · exact SelMapsInv_ruleIDs_aupsert s _ _ hinv
      · exact SelMapsInv_cleanup s _ hinv
    · exact hinv

theorem SelMapsInv_addFQDNSelector (ruleID : String) (fqdns : List String) :
    ∀ s : FQDNState, SelMapsInv s → SelMapsInv (addFQDNSelector s ruleID fqdns) := by
  induction fqdns with
  | nil => exact fun s hinv => hinv
  | cons fqdn rest ih =>
    intro s hinv
    rw [addFQDNSelector, List.foldl_cons]
    exact ih _ (SelMapsInv_addFQDNSelectorOne s ruleID fqdn hinv)

theorem SelMapsInv_deleteFQDNSelector (ruleID : String) (fqdns : List String) :
    ∀ s : FQDNState, SelMapsInv s → SelMapsInv (deleteFQDNSelector s ruleID fqdns) := by
  induction fqdns with
  | nil => exact fun s hinv => hinv
  | cons fqdn rest ih =>
    intro s hinv
    rw [deleteFQDNSelector, List.foldl_cons]
    exact ih _ (SelMapsInv_deleteFQDNSelectorOne s ruleID fqdn hinv)

theorem SelMapsInv_onDNSResponse (s : FQDNState) (fqdn : String)
    (newIPsWithExpiration : List (String × ipWithExpiration)) (now : Int)
    (hasWaitCh : Bool) (trackerDirty : Finset String) (hinv : SelMapsInv s) :
    SelMapsInv (onDNSResponse s fqdn newIPsWithExpiration now hasWaitCh trackerDirty).1 := by
  simp only [onDNSResponse]
  split
  · exact hinv
  · split
    · rename_i cachedDNSMeta heq
      split
      · exact hinv
      · refine SelMapsInv_cache_aupsert s fqdn _ hinv ?_
        exact hinv.2.2 fqdn (by rw [heq]; rfl)
    · rename_i heq
      have hregall : ∀ sel ∈ akeys s.selectorItemToRuleIDs,
          (alookup s.selectorItemToRuleIDs sel).isSome = true :=
        fun sel hsel => (alookup_isSome_iff_mem_akeys _ sel).mpr hsel
      have hscan := SelMapsInv_scan_selectors fqdn (akeys s.selectorItemToRuleIDs) s
        hinv hregall
      split
      · rename_i haddto
        refine SelMapsInv_cache_aupsert _ fqdn _ hscan.1 ?_
        rcases List.any_eq_true.mp haddto with ⟨sel, hmemsel, hmatch⟩
        exact ⟨sel, hscan.2.2.2 sel hmemsel hmatch⟩
      · exact hscan.1

theorem SelMapsInv_stepFQDN (s : FQDNState) (op : FQDNOp) (hinv : SelMapsInv s) :
    SelMapsInv (stepFQDN s op) := by
  cases op with
  | addSelector ruleID fqdns => exact SelMapsInv_addFQDNSelector ruleID fqdns s hinv
  | deleteSelector ruleID fqdns => exact SelMapsInv_deleteFQDNSelector ruleID fqdns s hinv
  | dnsResponse fqdn ips now hasWaitCh trackerDirty =>
    exact SelMapsInv_onDNSResponse s fqdn ips now hasWaitCh trackerDirty hinv

theorem SelMapsInv_runFQDNOps (ops : List FQDNOp) : SelMapsInv (runFQDNOps ops) := by
  rw [runFQDNOps]
  have h : ∀ s : FQDNState, SelMapsInv s → SelMapsInv (ops.foldl stepFQDN s) := by
    induction ops with
    | nil => exact fun s hinv => hinv
    | cons op rest ih =>
      intro s hinv
      rw [List.foldl_cons]
      exact ih _ (SelMapsInv_stepFQDN s op hinv)
  exact h initFQDNState SelMapsInv_init

/-- C7 (amended): in every state reachable by any interleaving of
`addFQDNSelector`, `deleteFQDNSelector` and `onDNSResponse`, every name
present in `dnsEntryCache` is matched by at least one registered selector
item (a key of `selectorItemToRuleIDs`). The converse direction of the
original claim does not hold: a registered selector may match a name that is
not cached, e.g. before the name's first resolution. -/
theorem dnsEntryCache_names_have_registered_selector (ops : List FQDNOp) (f : String)
    (hcached : (alookup (runFQDNOps ops).dnsEntryCache f).isSome = true) :
    ∃ sel : fqdnSelectorItem,
      (alookup (runFQDNOps ops).selectorItemToRuleIDs sel).isSome = true ∧
        sel.matches f = true := by
  have hinv := SelMapsInv_runFQDNOps ops
  rcases hinv.2.2 f hcached with ⟨sel, hsel⟩
  exact ⟨sel, hinv.2.1 f sel hsel⟩

/-- C7 witness: after adding a rule on `a.com` and resolving it, `a.com` is
cached, and the theorem yields a registered matching selector. -/
theorem dnsEntryCache_names_have_registered_selector_witness :
    (alookup (runFQDNOps [FQDNOp.addSelector "r1" ["a.com"],
        FQDNOp.dnsResponse "a.com"
          [("10.0.0.1", { ip := "10.0.0.1", expirationTime := 100 })] 0 false
          ∅]).dnsEntryCache "a.com").isSome = true ∧
      (∃ sel : fqdnSelectorItem,
        (alookup (runFQDNOps [FQDNOp.addSelector "r1" ["a.com"],
          FQDNOp.dnsResponse "a.com"
            [("10.0.0.1", { ip := "10.0.0.1", expirationTime := 100 })] 0 false
            ∅]).selectorItemToRuleIDs sel).isSome = true ∧
          sel.matches "a.com" = true) :=
  ⟨by decide,
    dnsEntryCache_names_have_registered_selector
      [FQDNOp.addSelector "r1" ["a.com"],
        FQDNOp.dnsResponse "a.com"
          [("10.0.0.1", { ip := "10.0.0.1", expirationTime := 100 })] 0 false ∅]
      "a.com" (by decide)⟩

/-- C7 counterexample: right after `addFQDNSelector` registers the exact
selector for `a.com` — before any DNS response — that registered selector
matches `a.com`, yet `a.com` is not in `dnsEntryCache`: the claimed
"if and only if" fails in the selector-to-cache direction. -/
theorem registered_selector_without_cached_name :
    (alookup (runFQDNOps [FQDNOp.addSelector "r1" ["a.com"]]).selectorItemToRuleIDs
        { matchName := "a.com", matchRegex := "" }).isSome = true ∧
      fqdnSelectorItem.matches { matchName := "a.com", matchRegex := "" } "a.com" = true ∧
      alookup (runFQDNOps [FQDNOp.addSelector "r1" ["a.com"]]).dnsEntryCache "a.com" =
        none := by
  decide
